import Mathlib

/-!
Verification of the leverage-strategy backtester simulation engine
(`backtest_engine.py`) against its natural-language specification.

Modelling conventions:
* Money, prices and share counts are modelled as `ℚ` (the Python code uses
  binary floats; the accounting identities are stated over exact rationals).
* Trading dates are modelled as `ℤ` (day numbers); the daily index means a
  pandas timestamp and its `.date()` coincide.
* Python `dict` objects keyed by ticker are modelled as association lists
  `List (String × ℚ)` read through `pget` (which returns `0` for a missing
  key, matching `dict.get(t, 0)`).
* Division by zero yields `0` in `ℚ`; theorems that depend on a division
  carry the corresponding positivity hypothesis.
-/

namespace Backtest

/-- `dict.get(t, 0)` on a ticker-keyed mapping. -/
def pget : List (String × ℚ) → String → ℚ
  | [], _ => 0
  | (k, x) :: rest, t => if k = t then x else pget rest t

/-- `row.get(col, d)`: lookup with an explicit default for a missing key. -/
def pgetD : List (String × ℚ) → String → ℚ → ℚ
  | [], _, d => d
  | (k, x) :: rest, t, d => if k = t then x else pgetD rest t d

/-- Whether the mapping carries a binding for key `t` (`col in df.columns`). -/
def hasKey : List (String × ℚ) → String → Bool
  | [], _ => false
  | (k, _) :: rest, t => k = t || hasKey rest t

/-- `m[t] = v`: update the first binding of `t`, or append one if absent. -/
def hset : List (String × ℚ) → String → ℚ → List (String × ℚ)
  | [], t, v => [(t, v)]
  | (k, x) :: rest, t, v =>
    if k = t then (k, v) :: rest else (k, x) :: hset rest t v

/-- Entry cause of a lot (`entry_type` field): drawdown trigger or idle force. -/
inductive EntryType
  | DROP
  | FORCE
deriving DecidableEq, Repr

/-- `sell_mode` parameter: `'limit'` or `'close'`. -/
inductive SellMode
  | limit
  | close
deriving DecidableEq, Repr

/-- `ma_mode` parameter: `'defensive'` (liquidate) or `'pause'` (stop buying). -/
inductive MAMode
  | defensive
  | pause
deriving DecidableEq, Repr

/-- One entry/exit rule (a row of the steps table). -/
structure Step where
  drop_pct : ℚ
  shift_pct : ℚ
  ticker : String
  profit_pct : ℚ
deriving DecidableEq, Repr

instance : Inhabited Step := ⟨⟨0, 0, "", 0⟩⟩

/-- One open tactical position (an element of `self.lots`). -/
structure Lot where
  ticker : String
  shares : ℚ
  price : ℚ
  step_idx : ℕ
  cost : ℚ
  buy_date : ℤ
  entry_type : EntryType
deriving DecidableEq, Repr

/-- Trade-log action kinds (`Action` strings of `self.trade_log`). -/
inductive Action
  | buyInit
  | sellDefensive
  | buyResume
  | sellProfit (e : EntryType)
  | forceIdle
  | switch
  | skipLimit
  | holding
deriving DecidableEq, Repr

/-- One trade-log row (the fields the verified claims depend on). -/
structure TradeEntry where
  date : ℤ
  action : Action
  ticker : String
  shares : ℚ
  price : ℚ
  value : ℚ
  step_idx : Option ℕ
deriving DecidableEq, Repr

/-- Per-step realized statistics (`self.step_stats[i]`). -/
structure StepStat where
  drop_count : ℕ
  force_count : ℕ
  drop_profits : List ℚ
  force_profits : List ℚ
  drop_amts : List ℚ
  force_amts : List ℚ
deriving DecidableEq, Repr

def StepStat.empty : StepStat := ⟨0, 0, [], [], [], []⟩

instance : Inhabited StepStat := ⟨StepStat.empty⟩

/-- One daily record (`self.daily_stats` row); per-ticker quartets are
    (ticker, price, shares held, market value, weight percent). -/
structure DailyRec where
  date : ℤ
  open_px : ℚ
  high_px : ℚ
  low_px : ℚ
  price_base : ℚ
  peak : ℚ
  drawdown : ℚ
  portfolioValue : ℚ
  buyHoldValue : ℚ
  cash : ℚ
  per_ticker : List (String × ℚ × ℚ × ℚ × ℚ)
  ma_line : Option ℚ
deriving DecidableEq, Repr

instance : Inhabited DailyRec := ⟨⟨0, 0, 0, 0, 0, 0, 0, 0, 0, 0, [], none⟩⟩

/-- One day of the price table: closes/opens/highs/lows per ticker plus the
    precomputed `Peak_<base>` column (`none` when that column is absent). -/
structure Row where
  date : ℤ
  closes : List (String × ℚ)
  opens : List (String × ℚ)
  highs : List (String × ℚ)
  lows : List (String × ℚ)
  peak? : Option ℚ
deriving DecidableEq, Repr

/-- Constructor parameters of `Backtester` (with `self.steps` already the
    sorted list produced in `__init__`). -/
structure Config where
  base_ticker : String
  add_tickers : List String
  initial_capital : ℚ
  steps : List Step
  sell_mode : SellMode
  cash_buffer_pct : ℚ
  use_ma_filter : Bool
  ma_period : ℕ
  ma_mode : MAMode
  max_buys_day : ℕ
  max_buys_week : ℕ
  force_buy_days : ℤ
deriving Repr

/-- `__init__` sorts the user-supplied steps ascending by `abs(drop_pct)`. -/
def sortSteps (steps : List Step) : List Step :=
  steps.mergeSort (fun a b => |a.drop_pct| ≤ |b.drop_pct|)

/-- Full mutable state of a `Backtester` during `run()`. -/
structure BTState where
  cash : ℚ
  holdings : List (String × ℚ)
  lots : List Lot
  step_active_flags : List Bool
  trade_log : List TradeEntry
  daily_stats : List DailyRec
  buy_history : List ℤ
  last_buy_date : ℤ
  step_stats : List StepStat
  rebalance_count : ℕ
  total_rebalanced : ℚ
  bh_shares : ℚ
  active_defensive : Bool
  is_ma_paused : Bool
  peak_price : ℚ
deriving Repr

/-- `check_buy_limits(current_date)` (backtest_engine.py lines 58–81). -/
def check_buy_limits (cfg : Config) (buy_history : List ℤ) (current_date : ℤ) : Bool :=
  if cfg.max_buys_day = 0 ∧ cfg.max_buys_week = 0 then
    true
  else if 0 < cfg.max_buys_day ∧
      cfg.max_buys_day ≤ (buy_history.countP (fun d => d = current_date)) then
    false
  else if 0 < cfg.max_buys_week ∧
      cfg.max_buys_week ≤
        (buy_history.countP (fun d => current_date - 6 ≤ d ∧ d ≤ current_date)) then
    false
  else
    true

/-- Exit decision for one lot on one day (lines 258–277): returns the
    execution price when the lot is sold today, `none` otherwise. -/
def exitDecision (mode : SellMode) (target_pct lot_price open_p high_p curr_p : ℚ) :
    Option ℚ :=
  let profit_target := lot_price * (1 + target_pct / 100)
  match mode with
  | .limit =>
    if open_p ≥ profit_target then some open_p
    else if high_p ≥ profit_target then some profit_target
    else none
  | .close =>
    if (curr_p - lot_price) / lot_price * 100 ≥ target_pct then some curr_p
    else none

/-- Defensive liquidation (lines 152–171): every positive holding is sold to
    cash at its close price, lots are cleared, all step flags reset. -/
def liquidate (cfg : Config) (prices : List (String × ℚ)) (date : ℤ) (st : BTState) :
    BTState :=
  let cash1 := st.holdings.foldl
    (fun acc ts => if ts.2 > 0 then acc + ts.2 * pget prices ts.1 else acc) st.cash
  let log1 := st.trade_log ++ (st.holdings.filter (fun ts => ts.2 > 0)).map
    (fun ts => ⟨date, .sellDefensive, ts.1, ts.2, pget prices ts.1,
      ts.2 * pget prices ts.1, none⟩)
  { st with
    active_defensive := true
    cash := cash1
    holdings := st.holdings.map (fun ts => (ts.1, if ts.2 > 0 then (0 : ℚ) else ts.2))
    trade_log := log1
    lots := []
    step_active_flags := List.replicate cfg.steps.length false }

/-- Re-entry after a defensive exit (lines 183–200): the defensive flag is
    cleared, then `cash × (1 − buffer%)` is invested in the base instrument
    provided its price is positive. -/
def resume (cfg : Config) (prices : List (String × ℚ)) (date : ℤ) (st : BTState) :
    BTState :=
  let st1 := { st with active_defensive := false }
  let p_buy := pget prices cfg.base_ticker
  if p_buy > 0 then
    let investable := st1.cash * (1 - cfg.cash_buffer_pct / 100)
    let s_buy := investable / p_buy
    let c_buy := s_buy * p_buy
    { st1 with
      cash := st1.cash - c_buy
      holdings := hset st1.holdings cfg.base_ticker
        (pget st1.holdings cfg.base_ticker + s_buy)
      trade_log := st1.trade_log ++ [⟨date, .buyResume, cfg.base_ticker, s_buy, p_buy, c_buy, none⟩] }
  else st1

/-- Trend-filter regime check at the top of each day (lines 147–203). -/
def regimeStep (cfg : Config) (prices : List (String × ℚ)) (date : ℤ)
    (base_price ma_val : ℚ) (st : BTState) : BTState :=
  if cfg.use_ma_filter ∧ ma_val > 0 then
    if base_price < ma_val then
      match cfg.ma_mode with
      | .defensive => if st.active_defensive then st else liquidate cfg prices date st
      | .pause => { st with is_ma_paused := true }
    else if base_price > ma_val then
      match cfg.ma_mode with
      | .defensive => if st.active_defensive then resume cfg prices date st else st
      | .pause => { st with is_ma_paused := false }
    else st
  else st

/-- Append one realized exit to a step's statistics bucket. -/
def addExit (s : StepStat) (e : EntryType) (profit amt : ℚ) : StepStat :=
  match e with
  | .DROP =>
    { s with
      drop_profits := s.drop_profits ++ [profit]
      drop_amts := s.drop_amts ++ [amt] }
  | .FORCE =>
    { s with
      force_profits := s.force_profits ++ [profit]
      force_amts := s.force_amts ++ [amt] }

def incDrop (s : StepStat) : StepStat := { s with drop_count := s.drop_count + 1 }

def incForce (s : StepStat) : StepStat := { s with force_count := s.force_count + 1 }

/-- Execution of one profit-taking exit (lines 279–347): credit proceeds,
    decrement the holding, record step statistics, redeploy cash (rebalance
    when a buffer is configured, otherwise full reinvestment into the base
    instrument), log the sale and clear the step's active flag.  The lot's
    removal from `self.lots` is performed by the caller's fold. -/
def sellLot (cfg : Config) (prices : List (String × ℚ)) (date : ℤ) (lot : Lot)
    (exec_price : ℚ) (st : BTState) : BTState :=
  let rev := lot.shares * exec_price
  let cost_basis := lot.shares * lot.price
  let profit := (exec_price - lot.price) / lot.price * 100
  let profit_amt := rev - cost_basis
  let cash1 := st.cash + rev
  let holdings1 := hset st.holdings lot.ticker (pget st.holdings lot.ticker - lot.shares)
  let stats1 := st.step_stats.set lot.step_idx
    (addExit (st.step_stats.getD lot.step_idx default) lot.entry_type profit profit_amt)
  let dep :=
    if cfg.cash_buffer_pct > 0 then
      let curr_equity := holdings1.foldl (fun acc ts => acc + ts.2 * pget prices ts.1) cash1
      let target_cash := curr_equity * (cfg.cash_buffer_pct / 100)
      let excess_cash := cash1 - target_cash
      if excess_cash > target_cash * (1 / 10) then
        let p_base := pget prices cfg.base_ticker
        if p_base > 0 then
          (cash1 - excess_cash,
           hset holdings1 cfg.base_ticker (pget holdings1 cfg.base_ticker + excess_cash / p_base),
           st.rebalance_count + 1, st.total_rebalanced + excess_cash)
        else (cash1, holdings1, st.rebalance_count, st.total_rebalanced)
      else (cash1, holdings1, st.rebalance_count, st.total_rebalanced)
    else
      let p_base := pget prices cfg.base_ticker
      if p_base > 0 ∧ cash1 > 0 then
        let shares_base := cash1 / p_base
        let cost := shares_base * p_base
        (cash1 - cost,
         hset holdings1 cfg.base_ticker (pget holdings1 cfg.base_ticker + shares_base),
         st.rebalance_count, st.total_rebalanced)
      else (cash1, holdings1, st.rebalance_count, st.total_rebalanced)
  { st with
    cash := dep.1
    holdings := dep.2.1
    step_stats := stats1
    rebalance_count := dep.2.2.1
    total_rebalanced := dep.2.2.2
    trade_log := st.trade_log ++
      [⟨date, .sellProfit lot.entry_type, lot.ticker, lot.shares, exec_price, rev, some lot.step_idx⟩]
    step_active_flags := st.step_active_flags.set lot.step_idx false }

/-- One iteration of the exit loop over lots (lines 245–277): a kept lot is
    moved to the accumulated lot list, an executed lot is sold. -/
def lotStep (cfg : Config) (row : Row) (st : BTState) (lot : Lot) : BTState :=
  let prices := row.closes
  let curr_p := pget prices lot.ticker
  if curr_p = 0 then { st with lots := st.lots ++ [lot] }
  else
    let high_p := pgetD row.highs lot.ticker curr_p
    let open_p := pgetD row.opens lot.ticker curr_p
    let target_pct := (cfg.steps.getD lot.step_idx default).profit_pct
    match exitDecision cfg.sell_mode target_pct lot.price open_p high_p curr_p with
    | some ep => sellLot cfg prices row.date lot ep st
    | none => { st with lots := st.lots ++ [lot] }

def exitsGo (cfg : Config) (row : Row) : List Lot → BTState → BTState
  | [], st => st
  | lot :: rest, st => exitsGo cfg row rest (lotStep cfg row st lot)

/-- Exit evaluation over all open lots (step 3 of the day, lines 243–350);
    lots that do not execute are retained in order. -/
def processExits (cfg : Config) (row : Row) (st : BTState) : BTState :=
  exitsGo cfg row st.lots { st with lots := [] }

/-- First step index whose active flag is false (lines 364–368). -/
def firstInactive : List Bool → Option ℕ
  | [] => none
  | b :: rest => if b then (firstInactive rest).map (· + 1) else some 0

/-- Forced idle entry (lines 358–420); the boolean is `forced_buy_executed`.
    Note that in the target-price-nonpositive fallback the base sale stands
    but neither the idle timer, the buy history, the flag nor the log are
    touched, and the flag stays `false`. -/
def forcedEntry (cfg : Config) (prices : List (String × ℚ)) (date : ℤ)
    (base_price port_value : ℚ) (st : BTState) : BTState × Bool :=
  if 0 < cfg.force_buy_days ∧ cfg.force_buy_days ≤ date - st.last_buy_date then
    match firstInactive st.step_active_flags with
    | none => (st, false)
    | some i =>
      let step := cfg.steps.getD i default
      let shift_val := port_value * (step.shift_pct / 100)
      let base_val_held := pget st.holdings cfg.base_ticker * base_price
      if base_val_held ≥ shift_val * (9 / 10) then
        let shares_to_sell := shift_val / base_price
        let holdings1 := hset st.holdings cfg.base_ticker
          (pget st.holdings cfg.base_ticker - shares_to_sell)
        let cash1 := st.cash + shift_val
        let buy_price := pget prices step.ticker
        if buy_price > 0 then
          let shares_to_buy := shift_val / buy_price
          let cost := shares_to_buy * buy_price
          ({ st with
             cash := cash1 - cost
             holdings := hset holdings1 step.ticker (pget holdings1 step.ticker + shares_to_buy)
             lots := st.lots ++ [⟨step.ticker, shares_to_buy, buy_price, i, cost, date, .FORCE⟩]
             step_active_flags := st.step_active_flags.set i true
             last_buy_date := date
             buy_history := st.buy_history ++ [date]
             trade_log := st.trade_log ++
               [⟨date, .forceIdle, cfg.base_ticker ++ "->" ++ step.ticker,
                 shares_to_buy, buy_price, shift_val, some i⟩]
             step_stats := st.step_stats.set i (incForce (st.step_stats.getD i default)) }, true)
        else ({ st with cash := cash1, holdings := holdings1 }, false)
      else (st, false)
  else (st, false)

/-- One iteration of the standard drawdown-entry loop (lines 424–493).
    In the target-price-nonpositive case the base sale, the DROP counter,
    the buy-history append and the idle-timer reset all still happen, but no
    lot is opened, the flag stays false, and no SWITCH row is logged. -/
def dropEntryStep (cfg : Config) (prices : List (String × ℚ)) (date : ℤ)
    (base_price drawdown_pct port_value : ℚ) (i : ℕ) (step : Step) (st : BTState) :
    BTState :=
  if drawdown_pct ≥ |step.drop_pct| ∧ st.step_active_flags.getD i false = false then
    let shift_val := port_value * (step.shift_pct / 100)
    let base_val_held := pget st.holdings cfg.base_ticker * base_price
    if base_val_held < shift_val * (9 / 10) then st
    else if check_buy_limits cfg st.buy_history date = false then
      { st with trade_log := st.trade_log ++ [⟨date, .skipLimit, step.ticker, 0, 0, 0, some i⟩] }
    else
      let stats1 := st.step_stats.set i (incDrop (st.step_stats.getD i default))
      let shares_to_sell := shift_val / base_price
      let holdings1 := hset st.holdings cfg.base_ticker
        (pget st.holdings cfg.base_ticker - shares_to_sell)
      let cash1 := st.cash + shift_val
      let buy_price := pget prices step.ticker
      if buy_price > 0 then
        let shares_to_buy := shift_val / buy_price
        let cost := shares_to_buy * buy_price
        { st with
          step_stats := stats1
          cash := cash1 - cost
          holdings := hset holdings1 step.ticker (pget holdings1 step.ticker + shares_to_buy)
          lots := st.lots ++ [⟨step.ticker, shares_to_buy, buy_price, i, cost, date, .DROP⟩]
          step_active_flags := st.step_active_flags.set i true
          trade_log := st.trade_log ++
            [⟨date, .switch, cfg.base_ticker ++ "->" ++ step.ticker,
              shares_to_buy, buy_price, shift_val, some i⟩]
          buy_history := st.buy_history ++ [date]
          last_buy_date := date }
      else
        { st with
          step_stats := stats1
          cash := cash1
          holdings := holdings1
          buy_history := st.buy_history ++ [date]
          last_buy_date := date }
  else st

def dropEntriesGo (cfg : Config) (prices : List (String × ℚ)) (date : ℤ)
    (base_price drawdown_pct port_value : ℚ) : ℕ → List Step → BTState → BTState
  | _, [], st => st
  | i, step :: rest, st =>
    dropEntriesGo cfg prices date base_price drawdown_pct port_value (i + 1) rest
      (dropEntryStep cfg prices date base_price drawdown_pct port_value i step st)

/-- Standard drawdown entries over all steps in sorted order (lines 423–493). -/
def dropEntries (cfg : Config) (prices : List (String × ℚ)) (date : ℤ)
    (base_price drawdown_pct port_value : ℚ) (st : BTState) : BTState :=
  dropEntriesGo cfg prices date base_price drawdown_pct port_value 0 cfg.steps st

/-- Daily Record appended on a liquidated (defensive) day (lines 207–223):
    the portfolio is cash only, drawdown is forced to 0, trading is skipped. -/
def defensiveRecord (cfg : Config) (row : Row) (base_price base_high ma_val : ℚ)
    (st : BTState) : BTState :=
  { st with daily_stats := st.daily_stats ++
      [⟨row.date, pgetD row.opens cfg.base_ticker 0, base_high,
        pgetD row.lows cfg.base_ticker 0, base_price, st.peak_price, 0,
        st.cash, st.bh_shares * base_price, st.cash, [], some ma_val⟩] }

/-- Entry evaluation (step 5, lines 356–493): skipped entirely while
    buy-paused; the forced idle entry runs first and, when it fires,
    suppresses the standard drop entries for the day. -/
def dayEntries (cfg : Config) (prices : List (String × ℚ)) (date : ℤ)
    (base_price drawdown_pct port_value : ℚ) (st : BTState) : BTState :=
  if st.is_ma_paused then st
  else
    let fe := forcedEntry cfg prices date base_price port_value st
    if fe.2 then fe.1
    else dropEntries cfg prices date base_price drawdown_pct port_value fe.1

/-- Daily Record appended on a normal day (lines 495–529); the recorded
    portfolio value is the stale start-of-day valuation while the cash and
    holdings columns reflect the day's trades. -/
def dayRecord (cfg : Config) (row : Row)
    (base_price base_high peak drawdown_pct port_value : ℚ) (st : BTState) : BTState :=
  let bh_val := if st.bh_shares > 0 then st.bh_shares * base_price else 0
  { st with daily_stats := st.daily_stats ++
      [⟨row.date, pgetD row.opens cfg.base_ticker 0, base_high,
        pgetD row.lows cfg.base_ticker 0, base_price, peak, drawdown_pct,
        port_value, bh_val, st.cash,
        (cfg.base_ticker :: cfg.add_tickers).map (fun t =>
          let shares := pget st.holdings t
          let p := pget row.closes t
          let val := shares * p
          (t, p, shares, val, if port_value > 0 then val / port_value * 100 else 0)),
        none⟩] }

/-- One iteration of the day loop (lines 132–529), in the source's order:
    regime check, defensive short-circuit, drawdown update, valuation,
    exits, entries (forced first, suppressing drops), daily record. -/
def processDay (cfg : Config) (row : Row) (ma? : Option ℚ) (st : BTState) : BTState :=
  let prices := row.closes
  let base_price := pget prices cfg.base_ticker
  let base_high := pgetD row.highs cfg.base_ticker base_price
  let ma_val := if cfg.use_ma_filter then ma?.getD 0 else 0
  let st1 := regimeStep cfg prices row.date base_price ma_val st
  if st1.active_defensive then defensiveRecord cfg row base_price base_high ma_val st1
  else
    let peak0 := row.peak?.getD base_price
    let peak := if peak0 ≤ 0 then base_price else peak0
    let drawdown_pct := if peak > 0 then (peak - base_price) / peak * 100 else 0
    let port_value := st1.holdings.foldl (fun acc ts => acc + ts.2 * pget prices ts.1) st1.cash
    let st2 := processExits cfg row { st1 with peak_price := peak }
    let st3 := dayEntries cfg prices row.date base_price drawdown_pct port_value st2
    dayRecord cfg row base_price base_high peak drawdown_pct port_value st3

/-- Whether the `Close_<base>` column is present (a pandas column is
    table-wide, so it is read off the first row; lines 88–89). -/
def hasBaseClose (cfg : Config) (rows : List Row) : Bool :=
  match rows with
  | [] => false
  | r :: _ => hasKey r.closes cfg.base_ticker

/-- Constructor-time state (`__init__`): buffer cash, zero holdings, no lots,
    all flags inactive, idle timer at the caller's start date. -/
def initState (cfg : Config) (start_date : ℤ) : BTState :=
  { cash := cfg.initial_capital * (cfg.cash_buffer_pct / 100)
    holdings := (cfg.base_ticker :: cfg.add_tickers).map (fun t => (t, (0 : ℚ)))
    lots := []
    step_active_flags := List.replicate cfg.steps.length false
    trade_log := []
    daily_stats := []
    buy_history := []
    last_buy_date := start_date
    step_stats := List.replicate cfg.steps.length StepStat.empty
    rebalance_count := 0
    total_rebalanced := 0
    bh_shares := 0
    active_defensive := false
    is_ma_paused := false
    peak_price := 0 }

/-- Day-0 setup inside `run()` (lines 86–121): with the base close column
    absent, `p0` is set to `0` (the error is only printed) and the run goes
    on; with `p0 > 0` the investable remainder buys the base instrument. -/
def initialBuy (cfg : Config) (r0 : Row) (hasBase : Bool) (st : BTState) : BTState :=
  let p0 := if hasBase then pget r0.closes cfg.base_ticker else 0
  if p0 > 0 then
    let investable := cfg.initial_capital - st.cash
    let shares := investable / p0
    let cost := shares * p0
    { st with
      holdings := hset st.holdings cfg.base_ticker shares
      trade_log := st.trade_log ++ [⟨r0.date, .buyInit, cfg.base_ticker, shares, p0, cost, none⟩]
      peak_price := pgetD r0.highs cfg.base_ticker p0
      bh_shares := cfg.initial_capital / p0 }
  else { st with peak_price := 1, bh_shares := 0 }

/-- `rolling(window=n).mean()` over a close series: `none` during warm-up. -/
def rollMean (xs : List ℚ) (n : ℕ) : List (Option ℚ) :=
  (List.range xs.length).map (fun i =>
    if 0 < n ∧ n ≤ i + 1 then some (((xs.take (i + 1)).drop (i + 1 - n)).sum / (n : ℚ))
    else none)

/-- State of `Backtester.run()` after day-0 setup and the first `k`
    iterations of the day loop (the first row is processed by the loop
    as well, as in the source). -/
def runAfterDays (cfg : Config) (rows : List Row) (start_date : ℤ) (k : ℕ) : BTState :=
  match rows with
  | [] => initState cfg start_date
  | r0 :: _ =>
    let st1 := initialBuy cfg r0 (hasBaseClose cfg rows) (initState cfg start_date)
    let mas : List (Option ℚ) :=
      if cfg.use_ma_filter then
        rollMean (rows.map (fun r => pget r.closes cfg.base_ticker)) cfg.ma_period
      else rows.map (fun _ => none)
    ((rows.zip mas).take k).foldl (fun st rm => processDay cfg rm.1 rm.2 st) st1

/-- `Backtester.run()` up to the end of the day loop.  The final state holds
    the Daily Record sequence and the trade log. -/
def runBacktest (cfg : Config) (rows : List Row) (start_date : ℤ) : BTState :=
  runAfterDays cfg rows start_date rows.length

/-- `daily_stats[-1]["PortfolioValue"]` as read by `get_summary` (line 584). -/
def lastPortfolioValue (st : BTState) : ℚ :=
  (st.daily_stats.getLast?.getD default).portfolioValue

/-- The CAGR percentage computed by `get_summary` (lines 610–623): the day
    count is taken from the caller-specified start/end dates, inclusive. -/
noncomputable def summary_cagr_pct (initial final : ℚ) (start_ts end_ts : ℤ) : ℝ :=
  let days : ℤ := (end_ts - start_ts) + 1
  let years : ℝ := (days : ℝ) / (1461 / 4 : ℝ)
  if 0 < years then (((final : ℝ) / (initial : ℝ)) ^ ((1 : ℝ) / years) - 1) * 100 else 0

/-- Mark-to-market value of a holdings mapping at a price mapping. -/
def mval (h prices : List (String × ℚ)) : ℚ :=
  (h.map (fun ts => ts.2 * pget prices ts.1)).sum

/-- Number of open lots owned by step index `j`. -/
def countLots (lots : List Lot) (j : ℕ) : ℕ :=
  lots.countP (fun l => l.step_idx == j)

/-- The inductive strengthening of the one-lot-per-step invariant: the flag
    array has one slot per step, and the open-lot count of step `j` is `1`
    exactly when its active flag is set. -/
def StepLotInv (cfg : Config) (st : BTState) : Prop :=
  st.step_active_flags.length = cfg.steps.length ∧
  ∀ j, countLots st.lots j = (if st.step_active_flags.getD j false then 1 else 0)

/-- Between `st` and `st'` the trade log only grew, by entries dated `date`
    whose actions satisfy `P`. -/
def LogAppends (date : ℤ) (P : Action → Prop) (st st' : BTState) : Prop :=
  ∃ l, st'.trade_log = st.trade_log ++ l ∧ ∀ e ∈ l, e.date = date ∧ P e.action

/-! Concrete scenario inputs used by counterexamples and witnesses. -/

/-- A price row in which base `"B"` closes at 10, target `"X"` at 5, and the
    rolling peak is 20 (drawdown 50%). -/
def ddRow : Row :=
  { date := 0, closes := [("B", 10), ("X", 5)], opens := [("B", 10), ("X", 5)]
    highs := [("B", 10), ("X", 5)], lows := [("B", 10), ("X", 5)], peak? := some 20 }

/-- Two steps shifting 50% and 52% of the (same, stale) portfolio value;
    both trigger at 50% drawdown. -/
def overdraftCfg : Config :=
  { base_ticker := "B", add_tickers := ["X"], initial_capital := 1000
    steps := [⟨5, 50, "X", 5⟩, ⟨6, 52, "X", 5⟩]
    sell_mode := .limit, cash_buffer_pct := 0
    use_ma_filter := false, ma_period := 200, ma_mode := .defensive
    max_buys_day := 0, max_buys_week := 0, force_buy_days := 0 }

/-- Two triggering steps with a daily buy cap of one. -/
def throttleCfg : Config :=
  { base_ticker := "B", add_tickers := ["X"], initial_capital := 1000
    steps := [⟨5, 30, "X", 5⟩, ⟨6, 30, "X", 5⟩]
    sell_mode := .limit, cash_buffer_pct := 0
    use_ma_filter := false, ma_period := 200, ma_mode := .defensive
    max_buys_day := 1, max_buys_week := 0, force_buy_days := 0 }

/-- One step (drop 5%, shift 50%, target X, profit 10%). -/
def reentryCfg : Config :=
  { base_ticker := "B", add_tickers := ["X"], initial_capital := 1000
    steps := [⟨5, 50, "X", 10⟩]
    sell_mode := .limit, cash_buffer_pct := 0
    use_ma_filter := false, ma_period := 200, ma_mode := .defensive
    max_buys_day := 0, max_buys_week := 0, force_buy_days := 0 }

/-- Day 1 for the same-day-reentry scenario: X closes at 10. -/
def reentryRow0 : Row :=
  { date := 0, closes := [("B", 10), ("X", 10)], opens := [("B", 10), ("X", 10)]
    highs := [("B", 10), ("X", 10)], lows := [("B", 10), ("X", 10)], peak? := some 20 }

/-- Day 2 for the same-day-reentry scenario: X opens at 12, above the 11
    profit target of the lot bought at 10. -/
def reentryRow1 : Row :=
  { date := 1, closes := [("B", 10), ("X", 12)], opens := [("B", 10), ("X", 12)]
    highs := [("B", 10), ("X", 12)], lows := [("B", 10), ("X", 12)], peak? := some 20 }

/-- Like `reentryCfg` but with a 3-day idle trigger for forced entries. -/
def forcedCfg : Config :=
  { base_ticker := "B", add_tickers := ["X"], initial_capital := 1000
    steps := [⟨5, 50, "X", 10⟩]
    sell_mode := .limit, cash_buffer_pct := 0
    use_ma_filter := false, ma_period := 200, ma_mode := .defensive
    max_buys_day := 0, max_buys_week := 0, force_buy_days := 3 }

/-- A configuration whose base close column is absent from the input rows. -/
def missingBaseCfg : Config :=
  { base_ticker := "B", add_tickers := ["X"], initial_capital := 1000
    steps := [⟨5, 50, "X", 5⟩]
    sell_mode := .limit, cash_buffer_pct := 0
    use_ma_filter := false, ma_period := 200, ma_mode := .defensive
    max_buys_day := 0, max_buys_week := 0, force_buy_days := 0 }

/-- A two-day table carrying only the target instrument's columns. -/
def missingBaseRows : List Row :=
  [{ date := 0, closes := [("X", 5)], opens := [("X", 5)]
     highs := [("X", 5)], lows := [("X", 5)], peak? := none },
   { date := 1, closes := [("X", 5)], opens := [("X", 5)]
     highs := [("X", 5)], lows := [("X", 5)], peak? := none }]

/-- A minimal mid-run state used by concrete witnesses: 100 base shares,
    no cash, `n` inactive steps. -/
def simpleState (n : ℕ) : BTState :=
  { cash := 0, holdings := [("B", 100), ("X", 0)], lots := []
    step_active_flags := List.replicate n false, trade_log := [], daily_stats := []
    buy_history := [], last_buy_date := 0, step_stats := List.replicate n StepStat.empty
    rebalance_count := 0, total_rebalanced := 0, bh_shares := 0
    active_defensive := false, is_ma_paused := false, peak_price := 0 }

/-- Configuration of the flat, zero-trade scenario: a single instrument and
    no steps, no buffer, no trend filter, no throttles, no forced entries. -/
def flatCfg (capital : ℚ) : Config :=
  { base_ticker := "B", add_tickers := [], initial_capital := capital
    steps := []
    sell_mode := .limit, cash_buffer_pct := 0
    use_ma_filter := false, ma_period := 200, ma_mode := .defensive
    max_buys_day := 0, max_buys_week := 0, force_buy_days := 0 }

/-- A flat-scenario row: the single instrument has OHLC all equal to `q`. -/
def flatRow (d : ℤ) (q : ℚ) : Row :=
  ⟨d, [("B", q)], [("B", q)], [("B", q)], [("B", q)], some q⟩

/-- A flat-scenario table from a list of closes, one day apart. -/
def flatRows : ℤ → List ℚ → List Row
  | _, [] => []
  | d, q :: qs => flatRow d q :: flatRows (d + 1) qs

/-! ### Association-list lemmas -/

theorem pget_hset_self (m : List (String × ℚ)) (t : String) (v : ℚ) :
    pget (hset m t v) t = v := by
  induction m with
  | nil => simp [hset, pget]
  | cons kx rest ih =>
    obtain ⟨k, x⟩ := kx
    by_cases hk : k = t
    · simp [hset, hk, pget]
    · simp [hset, hk, pget, ih]

theorem pget_hset_ne (m : List (String × ℚ)) (t t' : String) (v : ℚ) (h : t' ≠ t) :
    pget (hset m t v) t' = pget m t' := by
  have h' : t ≠ t' := Ne.symm h
  induction m with
  | nil =>
    simp only [hset, pget]
    rw [if_neg h']
  | cons kx rest ih =>
    obtain ⟨k, x⟩ := kx
    by_cases hk : k = t
    · subst hk
      simp only [hset, if_pos rfl, pget]
      rw [if_neg h', if_neg h']
    · simp only [hset, if_neg hk, pget]
      by_cases hk' : k = t'
      · rw [if_pos hk', if_pos hk']
      · rw [if_neg hk', if_neg hk', ih]

theorem mval_nil (p : List (String × ℚ)) : mval [] p = 0 := rfl

theorem mval_cons (k : String) (x : ℚ) (m p : List (String × ℚ)) :
    mval ((k, x) :: m) p = x * pget p k + mval m p := by
  simp [mval]

theorem mval_hset (p : List (String × ℚ)) :
    ∀ (m : List (String × ℚ)) (t : String) (v : ℚ),
      mval (hset m t v) p = mval m p + (v - pget m t) * pget p t := by
  intro m
  induction m with
  | nil =>
    intro t v
    simp only [hset, mval_cons, mval_nil, pget]
    ring
  | cons kx rest ih =>
    intro t v
    obtain ⟨k, x⟩ := kx
    by_cases hk : k = t
    · subst hk
      rw [show hset ((k, x) :: rest) k v = (k, v) :: rest from by simp [hset]]
      rw [mval_cons, mval_cons]
      rw [show pget ((k, x) :: rest) k = x from by simp [pget]]
      ring
    · rw [show hset ((k, x) :: rest) t v = (k, x) :: hset rest t v from by simp [hset, hk]]
      rw [mval_cons, mval_cons, ih]
      rw [show pget ((k, x) :: rest) t = pget rest t from by simp [pget, hk]]
      ring

theorem foldl_mval (p : List (String × ℚ)) :
    ∀ (m : List (String × ℚ)) (a : ℚ),
      m.foldl (fun acc ts => acc + ts.2 * pget p ts.1) a = a + mval m p := by
  intro m
  induction m with
  | nil => intro a; simp [mval]
  | cons kx rest ih =>
    intro a
    simp [mval, ih]
    ring

/-- Close-mode exit condition: for a positive entry price, close-based profit
    percent reaching the target percent is the same as the close reaching the
    profit-target price. -/
theorem close_profit_iff (l t c : ℚ) (hl : 0 < l) :
    ((c - l) / l * 100 ≥ t) ↔ (l * (1 + t / 100) ≤ c) := by
  rw [ge_iff_le, div_mul_eq_mul_div, le_div_iff₀ hl]
  constructor <;> intro h <;> nlinarith

/-! ### Lot-count and flag lemmas -/

theorem countLots_nil (j : ℕ) : countLots [] j = 0 := rfl

theorem countLots_append (l1 l2 : List Lot) (j : ℕ) :
    countLots (l1 ++ l2) j = countLots l1 j + countLots l2 j := by
  simp [countLots, List.countP_append]

theorem countLots_cons (lot : Lot) (l : List Lot) (j : ℕ) :
    countLots (lot :: l) j = countLots l j + (if lot.step_idx = j then 1 else 0) := by
  simp [countLots, List.countP_cons]

theorem countLots_middle (l1 l2 : List Lot) (lot : Lot) (j : ℕ) :
    countLots (l1 ++ lot :: l2) j =
      countLots (l1 ++ l2) j + (if lot.step_idx = j then 1 else 0) := by
  rw [countLots_append, countLots_cons, countLots_append]
  ring

theorem getD_set_false (l : List Bool) (i : ℕ) :
    (l.set i false).getD i false = false := by
  induction l generalizing i with
  | nil => simp
  | cons b rest ih =>
    cases i with
    | zero => simp
    | succ n => simpa using ih n

theorem getD_set_true (l : List Bool) (i : ℕ) (hi : i < l.length) :
    (l.set i true).getD i false = true := by
  induction l generalizing i with
  | nil => simp at hi
  | cons b rest ih =>
    cases i with
    | zero => simp
    | succ n => simpa using ih n (by simpa using hi)

theorem getD_set_ne (l : List Bool) (i j : ℕ) (b : Bool) (h : i ≠ j) :
    (l.set i b).getD j false = l.getD j false := by
  induction l generalizing i j with
  | nil => simp
  | cons c rest ih =>
    cases i with
    | zero =>
      cases j with
      | zero => exact absurd rfl h
      | succ m => simp
    | succ n =>
      cases j with
      | zero => simp
      | succ m => simpa using ih n m (fun hnm => h (by omega))

theorem getD_replicate_false (n j : ℕ) :
    (List.replicate n false).getD j false = false := by
  induction n generalizing j with
  | zero => simp
  | succ m ih =>
    cases j with
    | zero => simp [List.replicate]
    | succ k =>
      rw [List.replicate, List.getD_cons_succ]
      exact ih k

theorem firstInactive_spec (l : List Bool) :
    ∀ i, firstInactive l = some i → i < l.length ∧ l.getD i false = false := by
  induction l with
  | nil => intro i h; simp [firstInactive] at h
  | cons b rest ih =>
    intro i h
    by_cases hb : b = true
    · rw [firstInactive, if_pos hb] at h
      cases hfi : firstInactive rest with
      | none => rw [hfi] at h; simp at h
      | some k =>
        rw [hfi] at h
        obtain rfl : k + 1 = i := by simpa using h
        obtain ⟨hlt, hget⟩ := ih k hfi
        refine ⟨by simp; omega, ?_⟩
        simpa using hget
    · rw [firstInactive, if_neg hb] at h
      have h0 : (0 : ℕ) = i := by simpa using h
      subst h0
      refine ⟨by simp, ?_⟩
      cases b with
      | false => simp
      | true => exact absurd rfl hb

/-- Transport of the one-lot-per-step invariant along a state change that
    leaves lots and flags untouched. -/
theorem StepLotInv_of_eq {cfg : Config} {st st' : BTState}
    (hL : st'.lots = st.lots) (hF : st'.step_active_flags = st.step_active_flags)
    (h : StepLotInv cfg st) : StepLotInv cfg st' := by
  obtain ⟨h1, h2⟩ := h
  refine ⟨by rw [hF]; exact h1, fun j => ?_⟩
  rw [hL, hF]
  exact h2 j

theorem StepLotInv_liquidate (cfg : Config) (prices : List (String × ℚ)) (date : ℤ)
    (st : BTState) : StepLotInv cfg (liquidate cfg prices date st) := by
  refine ⟨by simp [liquidate], fun j => ?_⟩
  simp [liquidate, countLots_nil, getD_replicate_false]

theorem StepLotInv_resume (cfg : Config) (prices : List (String × ℚ)) (date : ℤ)
    (st : BTState) (h : StepLotInv cfg st) :
    StepLotInv cfg (resume cfg prices date st) := by
  simp only [resume]
  split_ifs with hp
  · exact StepLotInv_of_eq rfl rfl h
  · exact StepLotInv_of_eq rfl rfl h

theorem StepLotInv_regime (cfg : Config) (prices : List (String × ℚ)) (date : ℤ)
    (base_price ma_val : ℚ) (st : BTState) (h : StepLotInv cfg st) :
    StepLotInv cfg (regimeStep cfg prices date base_price ma_val st) := by
  unfold regimeStep
  by_cases h1 : cfg.use_ma_filter = true ∧ ma_val > 0
  · rw [if_pos h1]
    by_cases h2 : base_price < ma_val
    · rw [if_pos h2]
      cases cfg.ma_mode with
      | defensive =>
        by_cases hd : st.active_defensive = true
        · rw [if_pos hd]; exact h
        · rw [if_neg hd]; exact StepLotInv_liquidate cfg prices date st
      | pause => exact StepLotInv_of_eq rfl rfl h
    · rw [if_neg h2]
      by_cases h3 : base_price > ma_val
      · rw [if_pos h3]
        cases cfg.ma_mode with
        | defensive =>
          by_cases hd : st.active_defensive = true
          · rw [if_pos hd]; exact StepLotInv_resume cfg prices date st h
          · rw [if_neg hd]; exact h
        | pause => exact StepLotInv_of_eq rfl rfl h
      · rw [if_neg h3]; exact h
  · rw [if_neg h1]; exact h

theorem sellLot_lots (cfg : Config) (prices : List (String × ℚ)) (date : ℤ)
    (lot : Lot) (ep : ℚ) (st : BTState) :
    (sellLot cfg prices date lot ep st).lots = st.lots := rfl

theorem sellLot_flags (cfg : Config) (prices : List (String × ℚ)) (date : ℤ)
    (lot : Lot) (ep : ℚ) (st : BTState) :
    (sellLot cfg prices date lot ep st).step_active_flags =
      st.step_active_flags.set lot.step_idx false := rfl

/-- The exit loop body either retains the lot (appending it to the kept
    list) or sells it, clearing its step's flag. -/
theorem lotStep_cases (cfg : Config) (row : Row) (st : BTState) (lot : Lot) :
    ((lotStep cfg row st lot).lots = st.lots ++ [lot] ∧
      (lotStep cfg row st lot).step_active_flags = st.step_active_flags) ∨
    ((lotStep cfg row st lot).lots = st.lots ∧
      (lotStep cfg row st lot).step_active_flags =
        st.step_active_flags.set lot.step_idx false) := by
  simp only [lotStep]
  split_ifs with h
  · exact Or.inl ⟨rfl, rfl⟩
  · rcases hd : exitDecision cfg.sell_mode (cfg.steps.getD lot.step_idx default).profit_pct
      lot.price (pgetD row.opens lot.ticker (pget row.closes lot.ticker))
      (pgetD row.highs lot.ticker (pget row.closes lot.ticker))
      (pget row.closes lot.ticker) with _ | ep
    · exact Or.inl ⟨rfl, rfl⟩
    · exact Or.inr ⟨rfl, rfl⟩

theorem exitsGo_inv (cfg : Config) (row : Row) :
    ∀ (pending : List Lot) (st : BTState),
      st.step_active_flags.length = cfg.steps.length →
      (∀ j, countLots (st.lots ++ pending) j =
        (if st.step_active_flags.getD j false then 1 else 0)) →
      StepLotInv cfg (exitsGo cfg row pending st) := by
  intro pending
  induction pending with
  | nil =>
    intro st hlen hcnt
    exact ⟨hlen, fun j => by simpa using hcnt j⟩
  | cons lot rest ih =>
    intro st hlen hcnt
    show StepLotInv cfg (exitsGo cfg row rest (lotStep cfg row st lot))
    rcases lotStep_cases cfg row st lot with ⟨hL, hF⟩ | ⟨hL, hF⟩
    · refine ih _ (by rw [hF]; exact hlen) (fun j => ?_)
      rw [hL, hF, List.append_assoc]
      exact hcnt j
    · refine ih _ (by rw [hF, List.length_set]; exact hlen) (fun j => ?_)
      rw [hL, hF]
      by_cases hji : lot.step_idx = j
      · subst hji
        have hc := hcnt lot.step_idx
        rw [countLots_middle, if_pos rfl] at hc
        rw [getD_set_false, if_neg Bool.false_ne_true]
        by_cases hf : st.step_active_flags.getD lot.step_idx false
        · rw [if_pos hf] at hc
          omega
        · rw [if_neg hf] at hc
          omega
      · rw [getD_set_ne _ _ _ _ hji]
        have hc := hcnt j
        rw [countLots_middle, if_neg hji] at hc
        omega

theorem StepLotInv_processExits (cfg : Config) (row : Row) (st : BTState)
    (h : StepLotInv cfg st) : StepLotInv cfg (processExits cfg row st) := by
  obtain ⟨h1, h2⟩ := h
  exact exitsGo_inv cfg row st.lots { st with lots := [] } h1
    (fun j => by simpa using h2 j)

theorem StepLotInv_forced (cfg : Config) (prices : List (String × ℚ)) (date : ℤ)
    (base_price port_value : ℚ) (st : BTState) (h : StepLotInv cfg st) :
    StepLotInv cfg (forcedEntry cfg prices date base_price port_value st).1 := by
  obtain ⟨hlen, hcnt⟩ := h
  simp only [forcedEntry]
  split_ifs with h1
  · cases hfi : firstInactive st.step_active_flags with
    | none => exact ⟨hlen, hcnt⟩
    | some i =>
      obtain ⟨hilt, higet⟩ := firstInactive_spec st.step_active_flags i hfi
      rw [hlen] at hilt
      dsimp only
      split_ifs with h2 h3
      · refine ⟨by simpa [List.length_set] using hlen, fun j => ?_⟩
        dsimp only
        by_cases hji : i = j
        · subst hji
          have hc := hcnt i
          rw [higet, if_neg Bool.false_ne_true] at hc
          rw [countLots_append, countLots_cons, countLots_nil,
            getD_set_true _ _ (by rw [hlen]; exact hilt)]
          simp [hc]
        · have hc := hcnt j
          rw [countLots_append, countLots_cons, countLots_nil,
            getD_set_ne _ _ _ _ hji]
          simp [hji, hc]
      · exact ⟨hlen, hcnt⟩
      · exact ⟨hlen, hcnt⟩
  · exact ⟨hlen, hcnt⟩

theorem StepLotInv_dropEntryStep (cfg : Config) (prices : List (String × ℚ)) (date : ℤ)
    (base_price drawdown_pct port_value : ℚ) (i : ℕ) (step : Step) (st : BTState)
    (hi : i < cfg.steps.length) (h : StepLotInv cfg st) :
    StepLotInv cfg
      (dropEntryStep cfg prices date base_price drawdown_pct port_value i step st) := by
  obtain ⟨hlen, hcnt⟩ := h
  simp only [dropEntryStep]
  split_ifs with h1 h2 h3 h4
  · exact ⟨hlen, hcnt⟩
  · exact ⟨hlen, hcnt⟩
  · refine ⟨by simpa [List.length_set] using hlen, fun j => ?_⟩
    dsimp only
    by_cases hji : i = j
    · subst hji
      have hc := hcnt i
      rw [h1.2, if_neg Bool.false_ne_true] at hc
      rw [countLots_append, countLots_cons, countLots_nil,
        getD_set_true _ _ (by rw [hlen]; exact hi)]
      simp [hc]
    · have hc := hcnt j
      rw [countLots_append, countLots_cons, countLots_nil,
        getD_set_ne _ _ _ _ hji]
      simp [hji, hc]
  · exact ⟨hlen, hcnt⟩
  · exact ⟨hlen, hcnt⟩

theorem StepLotInv_dropEntriesGo (cfg : Config) (prices : List (String × ℚ)) (date : ℤ)
    (base_price drawdown_pct port_value : ℚ) :
    ∀ (rest : List Step) (i : ℕ) (st : BTState),
      i + rest.length ≤ cfg.steps.length → StepLotInv cfg st →
      StepLotInv cfg
        (dropEntriesGo cfg prices date base_price drawdown_pct port_value i rest st) := by
  intro rest
  induction rest with
  | nil => intro i st _ h; exact h
  | cons s rest ih =>
    intro i st hle h
    simp only [List.length_cons] at hle
    exact ih (i + 1) _ (by omega)
      (StepLotInv_dropEntryStep cfg prices date base_price drawdown_pct port_value i s st
        (by omega) h)

theorem StepLotInv_dayEntries (cfg : Config) (prices : List (String × ℚ)) (date : ℤ)
    (base_price drawdown_pct port_value : ℚ) (st : BTState) (h : StepLotInv cfg st) :
    StepLotInv cfg
      (dayEntries cfg prices date base_price drawdown_pct port_value st) := by
  simp only [dayEntries]
  split_ifs with hp hfe
  · exact h
  · exact StepLotInv_forced cfg prices date base_price port_value st h
  · exact StepLotInv_dropEntriesGo cfg prices date base_price drawdown_pct port_value
      cfg.steps 0 _ (by omega)
      (StepLotInv_forced cfg prices date base_price port_value st h)

theorem StepLotInv_processDay (cfg : Config) (row : Row) (ma? : Option ℚ)
    (st : BTState) (h : StepLotInv cfg st) :
    StepLotInv cfg (processDay cfg row ma? st) := by
  have hreg := StepLotInv_regime cfg row.closes row.date
    (pget row.closes cfg.base_ticker)
    (if cfg.use_ma_filter then ma?.getD 0 else 0) st h
  by_cases hdef : (regimeStep cfg row.closes row.date (pget row.closes cfg.base_ticker)
      (if cfg.use_ma_filter = true then ma?.getD 0 else 0) st).active_defensive = true
  · simp only [processDay]
    rw [if_pos hdef]
    exact StepLotInv_of_eq rfl rfl hreg
  · simp only [processDay]
    rw [if_neg hdef]
    exact StepLotInv_of_eq rfl rfl
      (StepLotInv_dayEntries _ _ _ _ _ _ _
        (StepLotInv_processExits cfg row _ (StepLotInv_of_eq rfl rfl hreg)))

theorem StepLotInv_initState (cfg : Config) (start_date : ℤ) :
    StepLotInv cfg (initState cfg start_date) := by
  refine ⟨by simp [initState], fun j => ?_⟩
  simp [initState, countLots_nil, getD_replicate_false]

theorem StepLotInv_initialBuy (cfg : Config) (r0 : Row) (hb : Bool) (st : BTState)
    (h : StepLotInv cfg st) : StepLotInv cfg (initialBuy cfg r0 hb st) := by
  simp only [initialBuy]
  split_ifs <;> exact StepLotInv_of_eq rfl rfl h

theorem StepLotInv_foldl (cfg : Config) :
    ∀ (l : List (Row × Option ℚ)) (st : BTState), StepLotInv cfg st →
      StepLotInv cfg (l.foldl (fun st rm => processDay cfg rm.1 rm.2 st) st) := by
  intro l
  induction l with
  | nil => intro st h; exact h
  | cons rm rest ih =>
    intro st h
    exact ih _ (StepLotInv_processDay cfg rm.1 rm.2 st h)

/-! ### C3 — at most one open lot per step -/

/-- C3: after day-0 setup and any number `k` of simulated days, the number
    of open lots owned by any step index is 0 or 1: entries fire only for
    inactive steps and set the flag with the single lot they open, exits
    clear the flag with the lot they close, and defensive liquidation clears
    lots and flags together. -/
theorem C3_one_lot_per_step (cfg : Config) (rows : List Row) (start_date : ℤ)
    (k : ℕ) (j : ℕ) :
    countLots (runAfterDays cfg rows start_date k).lots j ≤ 1 := by
  have hinv : StepLotInv cfg (runAfterDays cfg rows start_date k) := by
    cases rows with
    | nil => exact StepLotInv_initState cfg start_date
    | cons r0 rest =>
      simp only [runAfterDays]
      exact StepLotInv_foldl cfg _ _
        (StepLotInv_initialBuy cfg r0 _ _ (StepLotInv_initState cfg start_date))
  obtain ⟨-, hcnt⟩ := hinv
  rw [hcnt j]
  split <;> omega

/-! ### C1 — holding non-negativity -/

/-- C1 counterexample: with two steps shifting 50% and 52% of the same stale
    portfolio value, both firing on one 50%-drawdown day, the run ends with a
    negative base-instrument share count — the 90%-coverage pre-check does
    not enforce holding non-negativity. -/
theorem C1_counterexample :
    pget (runBacktest overdraftCfg [ddRow] 0).holdings overdraftCfg.base_ticker < 0 := by
  with_unfolding_all decide

/-- C1 (amended): an executed entry — drop-triggered or forced — only
    guarantees that the base holding value covers 90% of the shift amount
    (its pre-check); the base share count stays non-negative only under full
    (100%) coverage of the shift amount. -/
theorem C1_amended :
    (∀ (cfg : Config) (prices : List (String × ℚ)) (date : ℤ)
        (base_price drawdown_pct port_value : ℚ) (i : ℕ) (step : Step) (st : BTState),
      drawdown_pct ≥ |step.drop_pct| →
      st.step_active_flags.getD i false = false →
      ¬ pget st.holdings cfg.base_ticker * base_price <
          port_value * (step.shift_pct / 100) * (9 / 10) →
      check_buy_limits cfg st.buy_history date = true →
      0 < base_price →
      step.ticker ≠ cfg.base_ticker →
      pget st.holdings cfg.base_ticker * base_price ≥
        port_value * (step.shift_pct / 100) * (9 / 10) ∧
      (port_value * (step.shift_pct / 100) ≤
          pget st.holdings cfg.base_ticker * base_price →
        0 ≤ pget (dropEntryStep cfg prices date base_price drawdown_pct port_value i
          step st).holdings cfg.base_ticker)) ∧
    (∀ (cfg : Config) (prices : List (String × ℚ)) (date : ℤ)
        (base_price port_value : ℚ) (i : ℕ) (st : BTState),
      0 < cfg.force_buy_days ∧ cfg.force_buy_days ≤ date - st.last_buy_date →
      firstInactive st.step_active_flags = some i →
      pget st.holdings cfg.base_ticker * base_price ≥
        port_value * ((cfg.steps.getD i default).shift_pct / 100) * (9 / 10) →
      0 < base_price →
      (cfg.steps.getD i default).ticker ≠ cfg.base_ticker →
      pget st.holdings cfg.base_ticker * base_price ≥
        port_value * ((cfg.steps.getD i default).shift_pct / 100) * (9 / 10) ∧
      (port_value * ((cfg.steps.getD i default).shift_pct / 100) ≤
          pget st.holdings cfg.base_ticker * base_price →
        0 ≤ pget (forcedEntry cfg prices date base_price port_value
          st).1.holdings cfg.base_ticker)) := by
  constructor
  · intro cfg prices date base_price drawdown_pct port_value i step st
      htrig hflag hfund hlim hbp htk
    refine ⟨not_lt.1 hfund, fun hcov => ?_⟩
    have hdiv : port_value * (step.shift_pct / 100) / base_price ≤
        pget st.holdings cfg.base_ticker := (div_le_iff₀ hbp).mpr hcov
    simp only [dropEntryStep]
    split_ifs with h1 h2 h3
    · simp [hlim] at h2
    · dsimp only
      rw [pget_hset_ne _ _ _ _ (Ne.symm htk), pget_hset_self]
      linarith
    · dsimp only
      rw [pget_hset_self]
      linarith
    · exact absurd ⟨htrig, hflag⟩ h1
  · intro cfg prices date base_price port_value i st htime hfi hfund hbp htk
    refine ⟨hfund, fun hcov => ?_⟩
    have hdiv : port_value * ((cfg.steps.getD i default).shift_pct / 100) / base_price ≤
        pget st.holdings cfg.base_ticker := (div_le_iff₀ hbp).mpr hcov
    simp only [forcedEntry]
    rw [if_pos htime, hfi]
    dsimp only
    rw [if_pos hfund]
    split_ifs with h4
    · dsimp only
      rw [pget_hset_ne _ _ _ _ (Ne.symm htk), pget_hset_self]
      linarith
    · dsimp only
      rw [pget_hset_self]
      linarith

/-- Witness for `C1_amended` at concrete drop-entry and forced-entry
    states. -/
theorem C1_amended_witness :
    (0 ≤ pget
      (dropEntryStep reentryCfg ddRow.closes 0 10 50 1000 0 ⟨5, 50, "X", 10⟩
        (simpleState 1)).holdings reentryCfg.base_ticker) ∧
    (0 ≤ pget
      (forcedEntry forcedCfg ddRow.closes 5 10 1000
        (simpleState 1)).1.holdings forcedCfg.base_ticker) :=
  ⟨(C1_amended.1 reentryCfg ddRow.closes 0 10 50 1000 0 ⟨5, 50, "X", 10⟩ (simpleState 1)
      (by with_unfolding_all decide) (by with_unfolding_all decide)
      (by with_unfolding_all decide) (by with_unfolding_all decide)
      (by with_unfolding_all decide) (by with_unfolding_all decide)).2
      (by with_unfolding_all decide),
   (C1_amended.2 forcedCfg ddRow.closes 5 10 1000 0 (simpleState 1)
      (by with_unfolding_all decide) (by with_unfolding_all decide)
      (by with_unfolding_all decide) (by with_unfolding_all decide)
      (by with_unfolding_all decide)).2
      (by with_unfolding_all decide)⟩

/-! ### C2 — missing base close column -/

/-- C2: with the base instrument's close column absent from the input table,
    the day-0 price is fabricated as zero and the run continues, producing a
    full Daily Record sequence (here 2 records) instead of aborting; only the
    trade log stays empty because no initial buy could execute. -/
theorem C2_missing_close_column_continues :
    hasBaseClose missingBaseCfg missingBaseRows = false ∧
    (runBacktest missingBaseCfg missingBaseRows 0).daily_stats.length = 2 ∧
    (runBacktest missingBaseCfg missingBaseRows 0).trade_log = [] := by
  with_unfolding_all decide

/-! ### C4 — cash conservation per trade -/

/-- C4: trades conserve value exactly.  For a profit exit (including its
    immediate cash redeployment into the base instrument), cash plus
    mark-to-market holdings change only by the difference between the
    execution price and the close price of the sold lot — i.e. the exit
    credits exactly shares × execution price and the redeployment buys
    exactly at the close.  For an executed drop-entry switch, the sale of
    the shift amount of base credits exactly that much cash, the purchase
    of the target spends exactly that cash (the logged trade value equals
    the shift amount), so cash and cash-plus-market-value are unchanged at
    that day's prices. -/
theorem C4_cash_conservation :
    (∀ (cfg : Config) (prices : List (String × ℚ)) (date : ℤ) (lot : Lot) (ep : ℚ)
        (st : BTState),
      (sellLot cfg prices date lot ep st).cash +
          mval (sellLot cfg prices date lot ep st).holdings prices =
        st.cash + mval st.holdings prices + lot.shares * (ep - pget prices lot.ticker)) ∧
    (∀ (cfg : Config) (prices : List (String × ℚ)) (date : ℤ)
        (base_price drawdown_pct port_value : ℚ) (i : ℕ) (step : Step) (st : BTState),
      drawdown_pct ≥ |step.drop_pct| →
      st.step_active_flags.getD i false = false →
      ¬ pget st.holdings cfg.base_ticker * base_price <
          port_value * (step.shift_pct / 100) * (9 / 10) →
      check_buy_limits cfg st.buy_history date = true →
      0 < base_price →
      0 < pget prices step.ticker →
      pget prices cfg.base_ticker = base_price →
      (dropEntryStep cfg prices date base_price drawdown_pct port_value i step st).cash =
          st.cash ∧
      (dropEntryStep cfg prices date base_price drawdown_pct port_value i step st).cash +
          mval (dropEntryStep cfg prices date base_price drawdown_pct port_value i step
            st).holdings prices =
        st.cash + mval st.holdings prices ∧
      (dropEntryStep cfg prices date base_price drawdown_pct port_value i step
          st).trade_log =
        st.trade_log ++
          [⟨date, .switch, cfg.base_ticker ++ "->" ++ step.ticker,
            port_value * (step.shift_pct / 100) / pget prices step.ticker,
            pget prices step.ticker, port_value * (step.shift_pct / 100), some i⟩]) := by
  constructor
  · intro cfg prices date lot ep st
    simp only [sellLot]
    split_ifs with hb hx hp hq
    · dsimp only
      simp only [mval_hset]
      have hpb : pget prices cfg.base_ticker ≠ 0 := ne_of_gt hp
      field_simp
      ring
    · dsimp only
      simp only [mval_hset]
      ring
    · dsimp only
      simp only [mval_hset]
      ring
    · dsimp only
      simp only [mval_hset]
      have hpb : pget prices cfg.base_ticker ≠ 0 := ne_of_gt hq.1
      field_simp
      ring
    · dsimp only
      simp only [mval_hset]
      ring
  · intro cfg prices date base_price drawdown_pct port_value i step st
      htrig hflag hfund hlim hbp hbuy hprice
    have ht0 : pget prices step.ticker ≠ 0 := ne_of_gt hbuy
    have hb0 : base_price ≠ 0 := ne_of_gt hbp
    simp only [dropEntryStep]
    rw [if_pos ⟨htrig, hflag⟩, if_neg hfund, if_neg (by simp [hlim]), if_pos hbuy]
    refine ⟨?_, ?_, rfl⟩
    · dsimp only
      rw [div_mul_cancel₀ _ ht0]
      ring
    · dsimp only
      simp only [mval_hset]
      rw [hprice, div_mul_cancel₀ _ ht0]
      field_simp
      ring

/-- Witness for `C4_cash_conservation` at concrete trades. -/
theorem C4_cash_conservation_witness :
    ((sellLot reentryCfg ddRow.closes 0 ⟨"X", 10, 5, 0, 50, 0, .DROP⟩ 6
          (simpleState 1)).cash +
        mval (sellLot reentryCfg ddRow.closes 0 ⟨"X", 10, 5, 0, 50, 0, .DROP⟩ 6
          (simpleState 1)).holdings ddRow.closes =
      (simpleState 1).cash + mval (simpleState 1).holdings ddRow.closes +
        10 * (6 - pget ddRow.closes "X")) ∧
    ((dropEntryStep reentryCfg ddRow.closes 0 10 50 1000 0 ⟨5, 50, "X", 10⟩
          (simpleState 1)).cash = (simpleState 1).cash ∧
      (dropEntryStep reentryCfg ddRow.closes 0 10 50 1000 0 ⟨5, 50, "X", 10⟩
            (simpleState 1)).cash +
          mval (dropEntryStep reentryCfg ddRow.closes 0 10 50 1000 0 ⟨5, 50, "X", 10⟩
            (simpleState 1)).holdings ddRow.closes =
        (simpleState 1).cash + mval (simpleState 1).holdings ddRow.closes ∧
      (dropEntryStep reentryCfg ddRow.closes 0 10 50 1000 0 ⟨5, 50, "X", 10⟩
          (simpleState 1)).trade_log =
        (simpleState 1).trade_log ++
          [⟨0, .switch, reentryCfg.base_ticker ++ "->" ++ Step.ticker ⟨5, 50, "X", 10⟩,
            1000 * (Step.shift_pct ⟨5, 50, "X", 10⟩ / 100) / pget ddRow.closes "X",
            pget ddRow.closes "X", 1000 * (Step.shift_pct ⟨5, 50, "X", 10⟩ / 100),
            some 0⟩]) :=
  ⟨C4_cash_conservation.1 reentryCfg ddRow.closes 0 ⟨"X", 10, 5, 0, 50, 0, .DROP⟩ 6
      (simpleState 1),
   C4_cash_conservation.2 reentryCfg ddRow.closes 0 10 50 1000 0 ⟨5, 50, "X", 10⟩
      (simpleState 1) (by with_unfolding_all decide) (by with_unfolding_all decide)
      (by with_unfolding_all decide) (by with_unfolding_all decide)
      (by with_unfolding_all decide) (by with_unfolding_all decide)
      (by with_unfolding_all decide)⟩

/-! ### C5 — limit vs close exit modes -/

/-- C5: in limit mode a lot exits at the open when the open reaches the
    profit-target price (checked first), else at the target price when the
    high reaches it; in close mode it exits at the close exactly when the
    close reaches the target price; a day whose high reaches the target but
    whose close stays below it executes in limit mode and not in close mode. -/
theorem C5_exit_modes (target_pct lot_price open_p high_p curr_p : ℚ)
    (hl : 0 < lot_price) :
    (exitDecision .limit target_pct lot_price open_p high_p curr_p =
      if lot_price * (1 + target_pct / 100) ≤ open_p then some open_p
      else if lot_price * (1 + target_pct / 100) ≤ high_p then
        some (lot_price * (1 + target_pct / 100))
      else none) ∧
    (exitDecision .close target_pct lot_price open_p high_p curr_p =
      if lot_price * (1 + target_pct / 100) ≤ curr_p then some curr_p else none) ∧
    (lot_price * (1 + target_pct / 100) ≤ high_p →
      curr_p < lot_price * (1 + target_pct / 100) →
      (exitDecision .limit target_pct lot_price open_p high_p curr_p).isSome = true ∧
      exitDecision .close target_pct lot_price open_p high_p curr_p = none) := by
  have hclose : exitDecision .close target_pct lot_price open_p high_p curr_p =
      if lot_price * (1 + target_pct / 100) ≤ curr_p then some curr_p else none := by
    simp only [exitDecision]
    by_cases h : lot_price * (1 + target_pct / 100) ≤ curr_p
    · rw [if_pos ((close_profit_iff lot_price target_pct curr_p hl).2 h), if_pos h]
    · rw [if_neg (fun hc => h ((close_profit_iff lot_price target_pct curr_p hl).1 hc)),
        if_neg h]
  refine ⟨by simp [exitDecision, ge_iff_le], hclose, fun hh hc => ?_⟩
  constructor
  · simp only [exitDecision, ge_iff_le]
    by_cases ho : lot_price * (1 + target_pct / 100) ≤ open_p
    · rw [if_pos ho]; rfl
    · rw [if_neg ho, if_pos hh]; rfl
  · rw [hclose, if_neg (not_le.2 hc)]

/-- Witness for `C5_exit_modes` at a concrete price path. -/
theorem C5_exit_modes_witness :
    (exitDecision .limit 5 10 9 11 10 =
      if (10 : ℚ) * (1 + 5 / 100) ≤ 9 then some 9
      else if (10 : ℚ) * (1 + 5 / 100) ≤ 11 then some ((10 : ℚ) * (1 + 5 / 100))
      else none) ∧
    (exitDecision .close 5 10 9 11 10 =
      if (10 : ℚ) * (1 + 5 / 100) ≤ 10 then some 10 else none) ∧
    ((10 : ℚ) * (1 + 5 / 100) ≤ 11 → (10 : ℚ) < 10 * (1 + 5 / 100) →
      (exitDecision .limit 5 10 9 11 10).isSome = true ∧
      exitDecision .close 5 10 9 11 10 = none) :=
  C5_exit_modes 5 10 9 11 10 (by with_unfolding_all decide)

/-! ### C7 — CAGR over the caller-specified period -/

theorem regimeStep_no_filter (cfg : Config) (hma : cfg.use_ma_filter = false)
    (prices : List (String × ℚ)) (date : ℤ) (base_price ma_val : ℚ) (st : BTState) :
    regimeStep cfg prices date base_price ma_val st = st := by
  simp only [regimeStep]
  rw [if_neg (by simp [hma])]

theorem processExits_nil (cfg : Config) (row : Row) (st : BTState) (h : st.lots = []) :
    processExits cfg row st = { st with lots := [] } := by
  simp only [processExits, h]
  rfl

theorem processExits_peak_nil (cfg : Config) (row : Row) (st : BTState) (peak : ℚ)
    (h : st.lots = []) :
    processExits cfg row { st with peak_price := peak } =
      { st with peak_price := peak, lots := [] } :=
  processExits_nil cfg row { st with peak_price := peak } h

theorem dayEntries_flat (capital : ℚ) (prices : List (String × ℚ)) (date : ℤ)
    (base_price drawdown_pct port_value : ℚ) (st : BTState) :
    dayEntries (flatCfg capital) prices date base_price drawdown_pct port_value st = st := by
  have hfe : forcedEntry (flatCfg capital) prices date base_price port_value st =
      (st, false) := by
    simp only [forcedEntry]
    rw [if_neg (by simp [flatCfg])]
  by_cases hp : st.is_ma_paused = true
  · simp only [dayEntries]
    rw [if_pos hp]
  · simp only [dayEntries]
    rw [if_neg hp, hfe]
    show (if false = true then (st, false).1
      else dropEntries (flatCfg capital) prices date base_price drawdown_pct port_value st) = st
    rw [if_neg Bool.false_ne_true]
    show dropEntriesGo (flatCfg capital) prices date base_price drawdown_pct port_value 0 [] st = st
    rfl

/-- One flat-scenario day leaves everything but the Daily Record unchanged,
    appending one record whose portfolio value marks the unchanged holdings
    at that day's closes. -/
theorem processDay_flat (capital : ℚ) (row : Row) (ma? : Option ℚ) (st : BTState)
    (hlots : st.lots = []) (hdef : st.active_defensive = false) :
    (processDay (flatCfg capital) row ma? st).cash = st.cash ∧
    (processDay (flatCfg capital) row ma? st).holdings = st.holdings ∧
    (processDay (flatCfg capital) row ma? st).lots = [] ∧
    (processDay (flatCfg capital) row ma? st).active_defensive = false ∧
    (processDay (flatCfg capital) row ma? st).trade_log = st.trade_log ∧
    ∃ rec, (processDay (flatCfg capital) row ma? st).daily_stats =
        st.daily_stats ++ [rec] ∧
      rec.portfolioValue = st.cash + mval st.holdings row.closes := by
  simp only [processDay]
  rw [regimeStep_no_filter (flatCfg capital) rfl]
  rw [if_neg (by simp [hdef])]
  rw [processExits_peak_nil _ _ _ _ hlots]
  rw [dayEntries_flat]
  refine ⟨rfl, rfl, rfl, hdef, rfl, ?_⟩
  simp only [dayRecord]
  refine ⟨_, rfl, ?_⟩
  exact foldl_mval row.closes st.holdings st.cash

/-- Folding flat days: cash, holdings, lots and the trade log are constant,
    and the last Daily Record values the holdings at the last row's closes. -/
theorem flat_run_foldl (capital : ℚ) :
    ∀ (rows : List Row) (st : BTState),
      st.lots = [] → st.active_defensive = false →
      (rows.foldl (fun st r => processDay (flatCfg capital) r none st) st).cash =
          st.cash ∧
      (rows.foldl (fun st r => processDay (flatCfg capital) r none st) st).holdings =
          st.holdings ∧
      (rows.foldl (fun st r => processDay (flatCfg capital) r none st) st).lots = [] ∧
      (rows.foldl (fun st r => processDay (flatCfg capital) r none st)
          st).active_defensive = false ∧
      ∀ r, rows.getLast? = some r →
        ∃ rec,
          (rows.foldl (fun st r => processDay (flatCfg capital) r none st)
            st).daily_stats.getLast? = some rec ∧
          rec.portfolioValue = st.cash + mval st.holdings r.closes := by
  intro rows
  induction rows with
  | nil =>
    intro st h1 h2
    exact ⟨rfl, rfl, h1, h2, fun r hr => by simp at hr⟩
  | cons r0 rest ih =>
    intro st h1 h2
    obtain ⟨hc, hh, hl, hd, ht, rec0, hds, hpv⟩ := processDay_flat capital r0 none st h1 h2
    simp only [List.foldl_cons]
    obtain ⟨ihc, ihh, ihl, ihd, ihlast⟩ :=
      ih (processDay (flatCfg capital) r0 none st) hl hd
    refine ⟨by rw [ihc, hc], by rw [ihh, hh], ihl, ihd, fun r hr => ?_⟩
    cases rest with
    | nil =>
      obtain rfl : r0 = r := by simpa using hr
      refine ⟨rec0, ?_, hpv⟩
      simp only [List.foldl_nil, hds]
      exact List.getLast?_concat _
    | cons r1 rs =>
      rw [List.getLast?_cons_cons] at hr
      obtain ⟨rec, hrec, hrecpv⟩ := ihlast r hr
      exact ⟨rec, hrec, by rw [hrecpv, hc, hh]⟩

theorem zip_none_foldl (cfg : Config) :
    ∀ (rows : List Row) (st : BTState),
      ((rows.zip (rows.map (fun _ => (none : Option ℚ)))).foldl
        (fun st rm => processDay cfg rm.1 rm.2 st) st) =
      rows.foldl (fun st r => processDay cfg r none st) st := by
  intro rows
  induction rows with
  | nil => intro st; rfl
  | cons r rest ih =>
    intro st
    simp only [List.map_cons, List.zip_cons_cons, List.foldl_cons]
    exact ih _

theorem flatRows_getLast? :
    ∀ (qs : List ℚ) (d : ℤ) (q : ℚ),
      ∃ d', (flatRows d (q :: qs)).getLast? = some (flatRow d' (qs.getLastD q)) := by
  intro qs
  induction qs with
  | nil => intro d q; exact ⟨d, rfl⟩
  | cons q1 qs ih =>
    intro d q
    obtain ⟨d', h⟩ := ih (d + 1) q1
    refine ⟨d', ?_⟩
    rw [show flatRows d (q :: q1 :: qs) =
      flatRow d q :: flatRow (d + 1) q1 :: flatRows (d + 1 + 1) qs from rfl]
    rw [List.getLast?_cons_cons]
    rw [show (flatRow (d + 1) q1 :: flatRows (d + 1 + 1) qs) =
      flatRows (d + 1) (q1 :: qs) from rfl]
    rw [h]
    rw [List.getLastD_cons]

/-- `get_summary`'s CAGR with exponent `1/years` rewritten as
    `365.25 / days_held` over the caller-specified dates. -/
theorem summary_cagr_eval (initial fin : ℚ) (s e : ℤ) (hse : s ≤ e) :
    summary_cagr_pct initial fin s e =
      ((((fin / initial : ℚ)) : ℝ) ^ ((1461 / 4 : ℝ) / (((e - s + 1 : ℤ)) : ℝ)) - 1) *
        100 := by
  have hdays : (0 : ℤ) < e - s + 1 := by omega
  have hdaysR : (0 : ℝ) < ((e - s + 1 : ℤ) : ℝ) := by exact_mod_cast hdays
  simp only [summary_cagr_pct]
  rw [if_pos (by positivity)]
  rw [one_div_div]
  push_cast
  ring_nf

theorem C7_final_value (capital q0 : ℚ) (qs : List ℚ) (s : ℤ)
    (_hcap : 0 < capital) (hq0 : 0 < q0) :
    lastPortfolioValue (runBacktest (flatCfg capital) (flatRows s (q0 :: qs)) s) =
      capital * (qs.getLastD q0 / q0) := by
  have hrows : flatRows s (q0 :: qs) = flatRow s q0 :: flatRows (s + 1) qs := rfl
  simp only [runBacktest, runAfterDays, hrows]
  rw [if_neg (by simp [flatCfg])]
  rw [show (flatRow s q0 :: flatRows (s + 1) qs).map (fun _ => (none : Option ℚ)) =
    ((flatRow s q0 :: flatRows (s + 1) qs)).map (fun _ => (none : Option ℚ)) from rfl]
  rw [List.take_of_length_le (by simp [List.length_zip])]
  rw [zip_none_foldl]
  set st1 := initialBuy (flatCfg capital) (flatRow s q0)
    (hasBaseClose (flatCfg capital) (flatRow s q0 :: flatRows (s + 1) qs))
    (initState (flatCfg capital) s) with hst1
  have hlots : st1.lots = [] := by
    rw [hst1]
    simp only [initialBuy, initState]
    split_ifs <;> rfl
  have hdefe : st1.active_defensive = false := by
    rw [hst1]
    simp only [initialBuy, initState]
    split_ifs <;> rfl
  obtain ⟨-, -, -, -, hlast⟩ := flat_run_foldl capital (flatRow s q0 :: flatRows (s + 1) qs) st1 hlots hdefe
  obtain ⟨d', hgl⟩ := flatRows_getLast? qs s q0
  obtain ⟨rec, hrec, hrecpv⟩ := hlast _ hgl
  simp only [lastPortfolioValue, hrec, Option.getD_some]
  rw [hrecpv]
  have hbase : hasBaseClose (flatCfg capital) (flatRow s q0 :: flatRows (s + 1) qs) = true := by
    simp [hasBaseClose, flatRow, hasKey, flatCfg]
  have hst1c : st1.cash = capital * (0 / 100) ∧
      st1.holdings = [("B", (capital - capital * (0 / 100)) / q0)] := by
    rw [hst1, hbase]
    simp only [initialBuy, initState, flatCfg, flatRow]
    rw [if_pos (by simpa [pget] using hq0)]
    constructor
    · rfl
    · simp [hset, pget]
  rw [hst1c.1, hst1c.2]
  simp only [mval, flatRow, pget, List.map_cons, List.map_nil, List.sum_cons,
    List.sum_nil, if_true]
  have hq0' : q0 ≠ 0 := ne_of_gt hq0
  field_simp

/-- C7: `get_summary` computes CAGR as
    `(final/initial)^(365.25/days_held) − 1` with `days_held` taken from the
    caller-specified start and end dates; for a flat zero-trade scenario
    (single instrument, no steps) the final value is
    `capital × end price / start price`, so the CAGR equals
    `(end/start)^(365.25/days) − 1` exactly in this rational/real model. -/
theorem C7_cagr (capital q0 : ℚ) (qs : List ℚ) (s e : ℤ)
    (hcap : 0 < capital) (hq0 : 0 < q0) (hse : s ≤ e) :
    summary_cagr_pct capital
        (lastPortfolioValue (runBacktest (flatCfg capital) (flatRows s (q0 :: qs)) s))
        s e =
      ((((qs.getLastD q0 / q0 : ℚ)) : ℝ) ^
          ((1461 / 4 : ℝ) / (((e - s + 1 : ℤ)) : ℝ)) - 1) * 100 := by
  rw [C7_final_value capital q0 qs s hcap hq0]
  rw [summary_cagr_eval _ _ _ _ hse]
  have hcap' : capital ≠ 0 := ne_of_gt hcap
  rw [mul_div_cancel_left₀ _ hcap']

/-- Witness for `C7_cagr` at a concrete flat scenario. -/
theorem C7_cagr_witness :
    summary_cagr_pct 1000
        (lastPortfolioValue (runBacktest (flatCfg 1000) (flatRows 0 [4, 5]) 0)) 0 9 =
      (((([(5 : ℚ)].getLastD 4 / 4 : ℚ)) : ℝ) ^
          ((1461 / 4 : ℝ) / ((((9 : ℤ) - 0 + 1 : ℤ)) : ℝ)) - 1) * 100 :=
  C7_cagr 1000 4 [5] 0 9 (by norm_num) (by norm_num) (by norm_num)

/-! ### C6 — buy-frequency throttle -/

/-- C6: `check_buy_limits` allows immediately when both limits are zero, and
    otherwise blocks exactly when a positive daily limit is reached by buys
    on today's date or a positive weekly limit is reached by buys within the
    inclusive window of the last 7 days; and with `max_buys_day = 1`, two
    candidate drop entries on one day produce exactly one executed SWITCH
    plus one SKIP (Limit) row, with the skip consuming no throttle budget
    (the buy history records only the executed entry). -/
theorem C6_throttle :
    (∀ (cfg : Config) (hist : List ℤ) (d : ℤ),
      check_buy_limits cfg hist d = true ↔
        ((cfg.max_buys_day = 0 ∧ cfg.max_buys_week = 0) ∨
         ((0 < cfg.max_buys_day → hist.countP (fun x => x = d) < cfg.max_buys_day) ∧
          (0 < cfg.max_buys_week →
            hist.countP (fun x => d - 6 ≤ x ∧ x ≤ d) < cfg.max_buys_week)))) ∧
    ((runBacktest throttleCfg [ddRow] 0).trade_log.map (fun e => e.action) =
      [.buyInit, .switch, .skipLimit]) ∧
    (runBacktest throttleCfg [ddRow] 0).buy_history = [0] := by
  refine ⟨fun cfg hist d => ?_, by with_unfolding_all decide, by with_unfolding_all decide⟩
  unfold check_buy_limits
  split_ifs with h1 h2 h3
  · simp [h1]
  · simp only [false_iff]
    rintro (h | ⟨f1, f2⟩)
    · exact h1 h
    · have := f1 h2.1
      omega
  · simp only [false_iff]
    rintro (h | ⟨f1, f2⟩)
    · exact h1 h
    · have := f2 h3.1
      omega
  · simp only [true_iff]
    refine Or.inr ⟨fun hd => ?_, fun hw => ?_⟩
    · by_contra hcount
      exact h2 ⟨hd, by omega⟩
    · by_contra hcount
      exact h3 ⟨hw, by omega⟩

/-- Witness for `C6_throttle` at a concrete throttle query. -/
theorem C6_throttle_witness : check_buy_limits throttleCfg [] 0 = true :=
  (C6_throttle.1 throttleCfg [] 0).2
    (Or.inr ⟨fun _ => by with_unfolding_all decide, fun h => absurd h (by decide)⟩)

/-! ### C8 — forced and standard entries are mutually exclusive per day -/

theorem append_inj_right' {α : Type _} (a : List α) {b c : List α}
    (h : a ++ b = a ++ c) : b = c := by
  induction a with
  | nil => simpa using h
  | cons x xs ih => exact ih (by simpa using h)

theorem LogAppends_rfl {date : ℤ} {P : Action → Prop} {st st' : BTState}
    (h : st'.trade_log = st.trade_log) : LogAppends date P st st' :=
  ⟨[], by simp [h], by simp⟩

theorem LogAppends_trans {date : ℤ} {P : Action → Prop} {st1 st2 st3 : BTState}
    (h1 : LogAppends date P st1 st2) (h2 : LogAppends date P st2 st3) :
    LogAppends date P st1 st3 := by
  obtain ⟨l1, e1, p1⟩ := h1
  obtain ⟨l2, e2, p2⟩ := h2
  refine ⟨l1 ++ l2, by rw [e2, e1, List.append_assoc], fun e he => ?_⟩
  rcases List.mem_append.1 he with h | h
  exacts [p1 e h, p2 e h]

theorem LogAppends_mono {date : ℤ} {P Q : Action → Prop} {st st' : BTState}
    (hPQ : ∀ a, P a → Q a) (h : LogAppends date P st st') : LogAppends date Q st st' := by
  obtain ⟨l, e1, p1⟩ := h
  exact ⟨l, e1, fun e he => ⟨(p1 e he).1, hPQ _ (p1 e he).2⟩⟩

theorem liquidate_log (cfg : Config) (prices : List (String × ℚ)) (date : ℤ)
    (st : BTState) :
    LogAppends date (fun a => a = .sellDefensive ∨ a = .buyResume) st
      (liquidate cfg prices date st) := by
  refine ⟨_, rfl, fun e he => ?_⟩
  simp only [List.mem_map] at he
  obtain ⟨ts, -, rfl⟩ := he
  exact ⟨rfl, Or.inl rfl⟩

theorem resume_log (cfg : Config) (prices : List (String × ℚ)) (date : ℤ)
    (st : BTState) :
    LogAppends date (fun a => a = .sellDefensive ∨ a = .buyResume) st
      (resume cfg prices date st) := by
  simp only [resume]
  split_ifs with hp
  · refine ⟨_, rfl, fun e he => ?_⟩
    simp only [List.mem_singleton] at he
    subst he
    exact ⟨rfl, Or.inr rfl⟩
  · exact LogAppends_rfl rfl

theorem regimeStep_log (cfg : Config) (prices : List (String × ℚ)) (date : ℤ)
    (base_price ma_val : ℚ) (st : BTState) :
    LogAppends date (fun a => a = .sellDefensive ∨ a = .buyResume) st
      (regimeStep cfg prices date base_price ma_val st) := by
  unfold regimeStep
  by_cases h1 : cfg.use_ma_filter = true ∧ ma_val > 0
  · rw [if_pos h1]
    by_cases h2 : base_price < ma_val
    · rw [if_pos h2]
      cases cfg.ma_mode with
      | defensive =>
        by_cases hd : st.active_defensive = true
        · rw [if_pos hd]; exact LogAppends_rfl rfl
        · rw [if_neg hd]; exact liquidate_log cfg prices date st
      | pause => exact LogAppends_rfl rfl
    · rw [if_neg h2]
      by_cases h3 : base_price > ma_val
      · rw [if_pos h3]
        cases cfg.ma_mode with
        | defensive =>
          by_cases hd : st.active_defensive = true
          · rw [if_pos hd]; exact resume_log cfg prices date st
          · rw [if_neg hd]; exact LogAppends_rfl rfl
        | pause => exact LogAppends_rfl rfl
      · rw [if_neg h3]; exact LogAppends_rfl rfl
  · rw [if_neg h1]; exact LogAppends_rfl rfl

theorem lotStep_log (cfg : Config) (row : Row) (st : BTState) (lot : Lot) :
    LogAppends row.date (fun a => ∃ et, a = .sellProfit et) st
      (lotStep cfg row st lot) := by
  simp only [lotStep]
  split_ifs with h
  · exact LogAppends_rfl rfl
  · rcases exitDecision cfg.sell_mode (cfg.steps.getD lot.step_idx default).profit_pct
      lot.price (pgetD row.opens lot.ticker (pget row.closes lot.ticker))
      (pgetD row.highs lot.ticker (pget row.closes lot.ticker))
      (pget row.closes lot.ticker) with _ | ep
    · exact LogAppends_rfl rfl
    · refine ⟨_, rfl, fun e he => ?_⟩
      simp only [List.mem_singleton] at he
      subst he
      exact ⟨rfl, lot.entry_type, rfl⟩

theorem exitsGo_log (cfg : Config) (row : Row) :
    ∀ (pending : List Lot) (st : BTState),
      LogAppends row.date (fun a => ∃ et, a = .sellProfit et) st
        (exitsGo cfg row pending st) := by
  intro pending
  induction pending with
  | nil => intro st; exact LogAppends_rfl rfl
  | cons lot rest ih =>
    intro st
    exact LogAppends_trans (lotStep_log cfg row st lot) (ih _)

theorem processExits_log (cfg : Config) (row : Row) (st : BTState) :
    LogAppends row.date (fun a => ∃ et, a = .sellProfit et) st
      (processExits cfg row st) :=
  LogAppends_trans (LogAppends_rfl rfl) (exitsGo_log cfg row st.lots _)

theorem processExits_log_from (cfg : Config) (row : Row) (st0 mid : BTState)
    (h : mid.trade_log = st0.trade_log) :
    LogAppends row.date (fun a => ∃ et, a = .sellProfit et) st0
      (processExits cfg row mid) :=
  LogAppends_trans (LogAppends_rfl h) (processExits_log cfg row mid)

theorem forcedEntry_log (cfg : Config) (prices : List (String × ℚ)) (date : ℤ)
    (base_price port_value : ℚ) (st : BTState) :
    ((forcedEntry cfg prices date base_price port_value st).2 = true ∧
      LogAppends date (fun a => a = .forceIdle) st
        (forcedEntry cfg prices date base_price port_value st).1) ∨
    ((forcedEntry cfg prices date base_price port_value st).2 = false ∧
      (forcedEntry cfg prices date base_price port_value st).1.trade_log =
        st.trade_log) := by
  simp only [forcedEntry]
  split_ifs with h1
  · cases hfi : firstInactive st.step_active_flags with
    | none => exact Or.inr ⟨rfl, rfl⟩
    | some i =>
      dsimp only
      split_ifs with h2 h3
      · refine Or.inl ⟨rfl, _, rfl, fun e he => ?_⟩
        simp only [List.mem_singleton] at he
        subst he
        exact ⟨rfl, rfl⟩
      · exact Or.inr ⟨rfl, rfl⟩
      · exact Or.inr ⟨rfl, rfl⟩
  · exact Or.inr ⟨rfl, rfl⟩

theorem dropEntryStep_log (cfg : Config) (prices : List (String × ℚ)) (date : ℤ)
    (base_price drawdown_pct port_value : ℚ) (i : ℕ) (step : Step) (st : BTState) :
    LogAppends date (fun a => a = .switch ∨ a = .skipLimit) st
      (dropEntryStep cfg prices date base_price drawdown_pct port_value i step st) := by
  simp only [dropEntryStep]
  split_ifs with h1 h2 h3 h4
  · exact LogAppends_rfl rfl
  · refine ⟨_, rfl, fun e he => ?_⟩
    simp only [List.mem_singleton] at he
    subst he
    exact ⟨rfl, Or.inr rfl⟩
  · refine ⟨_, rfl, fun e he => ?_⟩
    simp only [List.mem_singleton] at he
    subst he
    exact ⟨rfl, Or.inl rfl⟩
  · exact LogAppends_rfl rfl
  · exact LogAppends_rfl rfl

theorem dropEntriesGo_log (cfg : Config) (prices : List (String × ℚ)) (date : ℤ)
    (base_price drawdown_pct port_value : ℚ) :
    ∀ (rest : List Step) (i : ℕ) (st : BTState),
      LogAppends date (fun a => a = .switch ∨ a = .skipLimit) st
        (dropEntriesGo cfg prices date base_price drawdown_pct port_value i rest st) := by
  intro rest
  induction rest with
  | nil => intro i st; exact LogAppends_rfl rfl
  | cons s rest ih =>
    intro i st
    exact LogAppends_trans
      (dropEntryStep_log cfg prices date base_price drawdown_pct port_value i s st)
      (ih _ _)

theorem dayEntries_log (cfg : Config) (prices : List (String × ℚ)) (date : ℤ)
    (base_price drawdown_pct port_value : ℚ) (st : BTState) :
    LogAppends date (fun a => a ≠ .forceIdle) st
        (dayEntries cfg prices date base_price drawdown_pct port_value st) ∨
    LogAppends date (fun a => a ≠ .switch) st
        (dayEntries cfg prices date base_price drawdown_pct port_value st) := by
  simp only [dayEntries]
  split_ifs with hp hfe
  · exact Or.inl (LogAppends_rfl rfl)
  · rcases forcedEntry_log cfg prices date base_price port_value st with
      ⟨-, hlog⟩ | ⟨hf, -⟩
    · refine Or.inr (LogAppends_mono ?_ hlog)
      rintro a rfl
      simp
    · rw [hf] at hfe
      exact absurd hfe (by simp)
  · rcases forcedEntry_log cfg prices date base_price port_value st with
      ⟨hf, -⟩ | ⟨-, hlog⟩
    · rw [hf] at hfe
      exact absurd rfl hfe
    · refine Or.inl (LogAppends_trans (LogAppends_rfl hlog) (LogAppends_mono ?_
        (dropEntriesGo_log cfg prices date base_price drawdown_pct port_value
          cfg.steps 0 _)))
      rintro a (rfl | rfl) <;> simp

theorem dayTail_log (cfg : Config) (row : Row) (bp bh peak dd pv : ℚ)
    (st st1 : BTState)
    (hreg : LogAppends row.date (fun a => a = .sellDefensive ∨ a = .buyResume) st st1) :
    LogAppends row.date (fun a => a ≠ .forceIdle) st
      (dayRecord cfg row bp bh peak dd pv
        (dayEntries cfg row.closes row.date bp dd pv
          (processExits cfg row { st1 with peak_price := peak }))) ∨
    LogAppends row.date (fun a => a ≠ .switch) st
      (dayRecord cfg row bp bh peak dd pv
        (dayEntries cfg row.closes row.date bp dd pv
          (processExits cfg row { st1 with peak_price := peak }))) := by
  rcases dayEntries_log cfg row.closes row.date bp dd pv
      (processExits cfg row { st1 with peak_price := peak }) with he | he
  · refine Or.inl (LogAppends_trans (LogAppends_mono ?_ hreg)
      (LogAppends_trans (LogAppends_mono ?_
        (processExits_log_from cfg row st1 { st1 with peak_price := peak } rfl))
        (LogAppends_trans he (LogAppends_rfl rfl))))
    · rintro a (rfl | rfl) <;> simp
    · rintro a ⟨et, rfl⟩
      simp
  · refine Or.inr (LogAppends_trans (LogAppends_mono ?_ hreg)
      (LogAppends_trans (LogAppends_mono ?_
        (processExits_log_from cfg row st1 { st1 with peak_price := peak } rfl))
        (LogAppends_trans he (LogAppends_rfl rfl))))
    · rintro a (rfl | rfl) <;> simp
    · rintro a ⟨et, rfl⟩
      simp

theorem processDay_log (cfg : Config) (row : Row) (ma? : Option ℚ) (st : BTState) :
    LogAppends row.date (fun a => a ≠ .forceIdle) st (processDay cfg row ma? st) ∨
    LogAppends row.date (fun a => a ≠ .switch) st (processDay cfg row ma? st) := by
  have hreg := regimeStep_log cfg row.closes row.date
    (pget row.closes cfg.base_ticker)
    (if cfg.use_ma_filter = true then ma?.getD 0 else 0) st
  by_cases hdef : (regimeStep cfg row.closes row.date (pget row.closes cfg.base_ticker)
      (if cfg.use_ma_filter = true then ma?.getD 0 else 0) st).active_defensive = true
  · simp only [processDay]
    rw [if_pos hdef]
    refine Or.inl (LogAppends_trans (LogAppends_mono ?_ hreg) (LogAppends_rfl rfl))
    rintro a (rfl | rfl) <;> simp
  · simp only [processDay]
    rw [if_neg hdef]
    exact dayTail_log cfg row _ _ _ _ _ st _ hreg

/-- C8: within one simulated day, a FORCE (Idle) row and a SWITCH row are
    never both appended to the trade log: a forced entry, when it fires,
    suppresses the standard drop entries for that day, and drop entries run
    only when no forced entry fired.  Every appended entry carries that
    day's date. -/
theorem C8_force_drop_exclusive (cfg : Config) (row : Row) (ma? : Option ℚ)
    (st : BTState) (l : List TradeEntry)
    (h : (processDay cfg row ma? st).trade_log = st.trade_log ++ l) :
    (∀ e ∈ l, e.date = row.date) ∧
    ¬ ((∃ e ∈ l, e.action = .forceIdle) ∧ (∃ e ∈ l, e.action = .switch)) := by
  rcases processDay_log cfg row ma? st with ⟨l', hl', hP⟩ | ⟨l', hl', hP⟩
  · rw [h] at hl'
    obtain rfl := append_inj_right' _ hl'
    refine ⟨fun e he => (hP e he).1, ?_⟩
    rintro ⟨⟨e1, he1, ha1⟩, -⟩
    exact (hP e1 he1).2 ha1
  · rw [h] at hl'
    obtain rfl := append_inj_right' _ hl'
    refine ⟨fun e he => (hP e he).1, ?_⟩
    rintro ⟨-, ⟨e2, he2, ha2⟩⟩
    exact (hP e2 he2).2 ha2

set_option maxRecDepth 8000 in
/-- Witness for `C8_force_drop_exclusive` on a concrete day that appends
    one SWITCH entry. -/
theorem C8_force_drop_exclusive_witness :
    (∀ e ∈ [(⟨0, .switch, "B" ++ "->" ++ "X", 50, 10, 500, some 0⟩ : TradeEntry)],
      e.date = reentryRow0.date) ∧
    ¬ ((∃ e ∈ [(⟨0, .switch, "B" ++ "->" ++ "X", 50, 10, 500, some 0⟩ : TradeEntry)],
          e.action = .forceIdle) ∧
       (∃ e ∈ [(⟨0, .switch, "B" ++ "->" ++ "X", 50, 10, 500, some 0⟩ : TradeEntry)],
          e.action = .switch)) :=
  C8_force_drop_exclusive reentryCfg reentryRow0 none (simpleState 1)
    [⟨0, .switch, "B" ++ "->" ++ "X", 50, 10, 500, some 0⟩]
    (by with_unfolding_all decide)

/-! ### C9 — same-day reentry after an exit -/

/-- C9: exits run before entries within a day and clear the step's flag, so
    a step whose lot hits its target on day `d` can open a new lot the same
    day: in this two-day run, day 1 logs the profit exit of step 0's lot and
    a new SWITCH for step 0, leaving one open lot bought on day 1. -/
theorem C9_same_day_reentry :
    ((runBacktest reentryCfg [reentryRow0, reentryRow1] 0).trade_log.map
        (fun e => (e.action, e.date)) =
      [(.buyInit, 0), (.switch, 0), (.sellProfit .DROP, 1), (.switch, 1)]) ∧
    ((runBacktest reentryCfg [reentryRow0, reentryRow1] 0).lots.map
        (fun l => (l.step_idx, l.buy_date)) = [(0, 1)]) := by
  with_unfolding_all decide

/-! ### C10 — drop entry with a non-positive target price -/

/-- C10: when a drop entry passes trigger, funding and throttle checks but
    the target instrument's close price is not positive, the base sale still
    happens (the proceeds stay in cash), the DROP count is still
    incremented, the buy timestamp is still appended and the idle timer
    reset, yet no lot is opened, the flag array is untouched (the step stays
    inactive) and no SWITCH row is logged. -/
theorem C10_nonpositive_target (cfg : Config) (prices : List (String × ℚ)) (date : ℤ)
    (base_price drawdown_pct port_value : ℚ) (i : ℕ) (step : Step) (st : BTState)
    (htrig : drawdown_pct ≥ |step.drop_pct|)
    (hflag : st.step_active_flags.getD i false = false)
    (hfund : ¬ pget st.holdings cfg.base_ticker * base_price <
        port_value * (step.shift_pct / 100) * (9 / 10))
    (hlim : check_buy_limits cfg st.buy_history date = true)
    (hbp0 : ¬ 0 < pget prices step.ticker) :
    (dropEntryStep cfg prices date base_price drawdown_pct port_value i step st).cash =
      st.cash + port_value * (step.shift_pct / 100) ∧
    (dropEntryStep cfg prices date base_price drawdown_pct port_value i step st).holdings =
      hset st.holdings cfg.base_ticker
        (pget st.holdings cfg.base_ticker - port_value * (step.shift_pct / 100) / base_price) ∧
    (dropEntryStep cfg prices date base_price drawdown_pct port_value i step st).lots =
      st.lots ∧
    (dropEntryStep cfg prices date base_price drawdown_pct port_value i step st).step_active_flags =
      st.step_active_flags ∧
    (dropEntryStep cfg prices date base_price drawdown_pct port_value i step
        st).step_active_flags.getD i false = false ∧
    (dropEntryStep cfg prices date base_price drawdown_pct port_value i step st).trade_log =
      st.trade_log ∧
    (dropEntryStep cfg prices date base_price drawdown_pct port_value i step st).buy_history =
      st.buy_history ++ [date] ∧
    (dropEntryStep cfg prices date base_price drawdown_pct port_value i step st).last_buy_date =
      date ∧
    (dropEntryStep cfg prices date base_price drawdown_pct port_value i step st).step_stats =
      st.step_stats.set i (incDrop (st.step_stats.getD i default)) := by
  simp only [dropEntryStep]
  rw [if_pos ⟨htrig, hflag⟩, if_neg hfund, if_neg (by simp [hlim]), if_neg hbp0]
  exact ⟨rfl, rfl, rfl, rfl, hflag, rfl, rfl, rfl, rfl⟩

/-- Witness for `C10_nonpositive_target`: the target ticker has no close
    column at all, so its price defaults to zero. -/
theorem C10_nonpositive_target_witness :
    (dropEntryStep reentryCfg [("B", 10)] 0 10 50 1000 0 ⟨5, 50, "X", 10⟩
        (simpleState 1)).cash = (simpleState 1).cash + 1000 * ((50 : ℚ) / 100) ∧
    (dropEntryStep reentryCfg [("B", 10)] 0 10 50 1000 0 ⟨5, 50, "X", 10⟩
        (simpleState 1)).holdings =
      hset (simpleState 1).holdings reentryCfg.base_ticker
        (pget (simpleState 1).holdings reentryCfg.base_ticker -
          1000 * ((50 : ℚ) / 100) / 10) ∧
    (dropEntryStep reentryCfg [("B", 10)] 0 10 50 1000 0 ⟨5, 50, "X", 10⟩
        (simpleState 1)).lots = (simpleState 1).lots ∧
    (dropEntryStep reentryCfg [("B", 10)] 0 10 50 1000 0 ⟨5, 50, "X", 10⟩
        (simpleState 1)).step_active_flags = (simpleState 1).step_active_flags ∧
    (dropEntryStep reentryCfg [("B", 10)] 0 10 50 1000 0 ⟨5, 50, "X", 10⟩
        (simpleState 1)).step_active_flags.getD 0 false = false ∧
    (dropEntryStep reentryCfg [("B", 10)] 0 10 50 1000 0 ⟨5, 50, "X", 10⟩
        (simpleState 1)).trade_log = (simpleState 1).trade_log ∧
    (dropEntryStep reentryCfg [("B", 10)] 0 10 50 1000 0 ⟨5, 50, "X", 10⟩
        (simpleState 1)).buy_history = (simpleState 1).buy_history ++ [0] ∧
    (dropEntryStep reentryCfg [("B", 10)] 0 10 50 1000 0 ⟨5, 50, "X", 10⟩
        (simpleState 1)).last_buy_date = 0 ∧
    (dropEntryStep reentryCfg [("B", 10)] 0 10 50 1000 0 ⟨5, 50, "X", 10⟩
        (simpleState 1)).step_stats =
      (simpleState 1).step_stats.set 0
        (incDrop ((simpleState 1).step_stats.getD 0 default)) :=
  C10_nonpositive_target reentryCfg [("B", 10)] 0 10 50 1000 0 ⟨5, 50, "X", 10⟩
    (simpleState 1) (by with_unfolding_all decide) (by with_unfolding_all decide)
    (by with_unfolding_all decide) (by with_unfolding_all decide)
    (by with_unfolding_all decide)

end Backtest
